import Mathlib

/-!
# STOMP broker: queue, subscription and dispatcher

A shallow embedding of `server/queue/queue.go`, `server/client/subscription.go`
and the request loop of `server/processor.go`.

Conventions of the embedding.

* Go pointers to `Subscription` and `Conn` objects are natural-number
  references into a memory `Mem`; a method that mutates an object returns the
  updated memory.
* A `*frame.Frame` is carried as a value: a method that stamps a header on a
  frame and stores the pointer stores the stamped value.
* A Go `panic` is `Except.error`; a method that returns normally is `Except.ok`.
* `int64` and `int` counters are integers wrapped to 64 bits after each
  increment.
* Go strings are Lean strings.
-/

set_option autoImplicit false

/-! ## Package frame (header names and the frame type used by the server) -/

namespace frame

/-- Header name `subscription` (constant `Subscription`). -/
def Subscription : String := "subscription"

/-- Header name `destination` (constant `Destination`). -/
def Destination : String := "destination"

/-- Header name `message-id` (constant `MessageId`). -/
def MessageId : String := "message-id"

/-- Modelled from the spec: the ack mode constant `AckAuto` of the frame
package, whose declaration is not among the sources; the spec names the mode
`auto`. -/
def AckAuto : String := "auto"

/-- Modelled from the spec: the ack mode constant `AckClient` of the frame
package, whose declaration is not among the sources; the spec names the mode
`client`. -/
def AckClient : String := "client"

/-- Modelled from the spec: the ack mode constant `AckClientIndividual` of the
frame package, whose declaration is not among the sources; the spec names the
mode `client-individual`. -/
def AckClientIndividual : String := "client-individual"

/-- Modelled from the spec: the header collection of the frame package, whose
declaration is not among the sources. Headers are an ordered sequence of
name/value entries; on duplicates the first occurrence is authoritative. -/
structure Header where
  entries : List (String × String)
deriving DecidableEq, Repr

/-- Modelled from the spec: lookup by name returns the first entry with that
name (Go: `value, ok := h.Contains(key)`; `none` is `ok == false`). -/
def Header.Contains (h : Header) (key : String) : Option String :=
  (h.entries.find? (fun e => e.1 == key)).map (fun e => e.2)

/-- Replace the value of the first entry named `key`, or append a new entry
when there is none. -/
def setEntry (key value : String) : List (String × String) → List (String × String)
  | [] => [(key, value)]
  | e :: es => if e.1 = key then (key, value) :: es else e :: setEntry key value es

/-- Modelled from the spec: `Header.Set` of the frame package, whose
declaration is not among the sources: it sets the header `key` to `value`, so
that a lookup of `key` afterwards returns `value`; the other entries keep their
place. -/
def Header.Set (h : Header) (key value : String) : Header :=
  ⟨setEntry key value h.entries⟩

/-- Modelled from the spec: the frame of the frame package (command, ordered
headers, body), whose declaration is not among the sources. -/
structure Frame where
  Command : String
  Header : Header
  Body : List Nat
deriving DecidableEq, Repr

end frame

/-! ## Package client: connections, subscriptions, subscription lists -/

namespace client

/-- Modelled from the spec: the connection object, whose declaration is not
among the sources. It has an identifier, the channel on which subscriptions
holding a queue frame are handed over (`subChannel`, oldest first) and the
outbound write path used by `Send` (frames with the destination they were sent
for, oldest first). -/
structure Conn where
  id : Int
  subChannel : List Nat
  writeChannel : List (frame.Frame × String)
deriving DecidableEq, Repr

/-- Modelled from the spec: `Conn.Id` returns the identifier. -/
def Conn.Id (c : Conn) : Int := c.id

/-- The struct `Subscription`. The owning connection is a reference; the
fields `subList` and `log` belong to the list implementation and to logging and
are not part of the embedding. -/
structure Subscription where
  conn : Nat
  dest : String
  id : String
  ack : String
  msgId : Nat
  frame : Option frame.Frame
deriving DecidableEq, Repr

/-- The constructor `newSubscription`. -/
def newSubscription (c : Nat) (dest id ack : String) : Subscription :=
  { conn := c, dest := dest, id := id, ack := ack, msgId := 0, frame := none }

def Subscription.Destination (s : Subscription) : String := s.dest

def Subscription.Ack (s : Subscription) : String := s.ack

def Subscription.Id (s : Subscription) : String := s.id

/-- The method `IsAckedBy`: the switch on the ack mode; any other mode reaches
the panic after the switch. -/
def Subscription.IsAckedBy (s : Subscription) (msgId : Nat) : Except String Bool :=
  if s.ack = frame.AckAuto then .ok true
  else if s.ack = frame.AckClient then .ok (decide (msgId ≥ s.msgId))
  else if s.ack = frame.AckClientIndividual then .ok (decide (msgId = s.msgId))
  else .error "invalid value for subscript.ack"

/-- The method `IsNackedBy`. -/
def Subscription.IsNackedBy (s : Subscription) (msgId : Nat) : Bool :=
  decide (msgId = s.msgId)

/-- The method `setSubscriptionHeader`: panics when a frame is pending,
otherwise stamps the `subscription` header of `f` with the subscription id. -/
def Subscription.setSubscriptionHeader (s : Subscription) (f : frame.Frame) :
    Except String frame.Frame :=
  match s.frame with
  | some _ => .error "subscription already has a frame pending"
  | none => .ok { f with Header := f.Header.Set frame.Subscription s.id }

/-- Modelled from the spec: the subscription list, whose declaration is not
among the sources: an ordered set of subscription references. -/
structure SubscriptionList where
  subs : List Nat
deriving DecidableEq, Repr

/-- Modelled from the spec: `NewSubscriptionList` is the empty list. -/
def NewSubscriptionList : SubscriptionList := ⟨[]⟩

/-- Modelled from the spec: `Add(s)` appends if not present. -/
def SubscriptionList.Add (sl : SubscriptionList) (sub : Nat) : SubscriptionList :=
  if sub ∈ sl.subs then sl else ⟨sl.subs ++ [sub]⟩

/-- Modelled from the spec: `Remove(s)` removes by identity. -/
def SubscriptionList.Remove (sl : SubscriptionList) (sub : Nat) : SubscriptionList :=
  ⟨sl.subs.filter (fun r => r ≠ sub)⟩

/-- Modelled from the spec: `Get()` removes and returns the head, or returns
nil (`none`) and leaves the list as it is. -/
def SubscriptionList.Get (sl : SubscriptionList) : Option Nat × SubscriptionList :=
  match sl.subs with
  | [] => (none, sl)
  | r :: rest => (some r, ⟨rest⟩)

/-- Modelled from the spec: `Len()` returns the cardinality. -/
def SubscriptionList.Len (sl : SubscriptionList) : Nat := sl.subs.length

end client

/-! ## Package queue: storage -/

namespace queue

/-- Modelled from the spec: the in-memory queue storage, whose declaration is
not among the sources: a FIFO of frames per destination. It never fails. -/
structure Storage where
  frames : String → List frame.Frame

/-- Modelled from the spec: `NewMemoryQueueStorage` holds no frame. -/
def NewMemoryQueueStorage : Storage := ⟨fun _ => []⟩

/-- Replace the FIFO of one destination. -/
def Storage.put (st : Storage) (dest : String) (fs : List frame.Frame) : Storage :=
  ⟨fun d => if d = dest then fs else st.frames d⟩

/-- Modelled from the spec: `Enqueue(dest, frame)` appends. -/
def Storage.Enqueue (st : Storage) (dest : String) (f : frame.Frame) : Storage :=
  st.put dest (st.frames dest ++ [f])

/-- Modelled from the spec: `Requeue(dest, frame)` prepends. -/
def Storage.Requeue (st : Storage) (dest : String) (f : frame.Frame) : Storage :=
  st.put dest (f :: st.frames dest)

/-- Modelled from the spec: `Dequeue(dest)` removes and returns the head, or
the nil sentinel (`none`) if the FIFO is empty. -/
def Storage.Dequeue (st : Storage) (dest : String) : Option frame.Frame × Storage :=
  match st.frames dest with
  | [] => (none, st)
  | f :: rest => (some f, st.put dest rest)

/-- Modelled from the spec: `Count(dest)` returns the length. -/
def Storage.Count (st : Storage) (dest : String) : Nat := (st.frames dest).length

end queue

/-! ## Memory: the objects reached through pointers -/

/-- The mutable objects shared between the dispatcher's data structures: the
subscription objects, the connection objects, and the queue storage that every
queue of the queue manager holds a handle to. -/
structure Mem where
  subs : Nat → client.Subscription
  conns : Nat → client.Conn
  qstore : queue.Storage

/-- Write a subscription object. -/
def Mem.setSub (m : Mem) (r : Nat) (s : client.Subscription) : Mem :=
  { m with subs := fun x => if x = r then s else m.subs x }

/-- Write a connection object. -/
def Mem.setConn (m : Mem) (r : Nat) (c : client.Conn) : Mem :=
  { m with conns := fun x => if x = r then c else m.conns x }

namespace client

/-- The method `SendQueueFrame` on the subscription referenced by `r`: stamp
the subscription header (or panic), store the frame as pending, and send the
subscription on its connection's `subChannel`. -/
def SendQueueFrame (m : Mem) (r : Nat) (f : frame.Frame) : Except String Mem :=
  match (m.subs r).setSubscriptionHeader f with
  | .error e => .error e
  | .ok f1 =>
    let m1 := m.setSub r { m.subs r with frame := some f1 }
    let c := (m1.subs r).conn
    .ok (m1.setConn c { m1.conns c with subChannel := (m1.conns c).subChannel ++ [r] })

/-- Modelled from the spec: `Conn.Send(f, dest)` hands the frame to the
connection's outbound write path. -/
def Conn.Send (c : Conn) (f : frame.Frame) (dest : String) : Conn :=
  { c with writeChannel := c.writeChannel ++ [(f, dest)] }

/-- The method `SendTopicFrame` on the subscription referenced by `r`: stamp
the subscription header (or panic) and send the frame on the connection. -/
def SendTopicFrame (m : Mem) (r : Nat) (f : frame.Frame) : Except String Mem :=
  match (m.subs r).setSubscriptionHeader f with
  | .error e => .error e
  | .ok f1 =>
    let c := (m.subs r).conn
    .ok (m.setConn c ((m.conns c).Send f1 (m.subs r).dest))

end client

/-! ## Package status -/

namespace status

/-- The struct `QueueStatus`. -/
structure QueueStatus where
  Dest : String
  MessageCount : Nat
  TotalCount : Int
  CurrentCount : Int
  SubscriptionCount : Nat
deriving DecidableEq, Repr

end status

/-! ## Package queue: the queue -/

/-- The value of a 64-bit signed counter after an arithmetic step. -/
def wrapInt64 (x : Int) : Int := (x + 2 ^ 63) % 2 ^ 64 - 2 ^ 63

namespace queue

/-- The struct `Queue`. The field `qstore` is a handle to the storage shared by
the queues of a manager; the storage itself is `Mem.qstore`. -/
structure Queue where
  destination : String
  totalCount : Int
  currentCount : Int
  subs : client.SubscriptionList
deriving DecidableEq, Repr

/-- The constructor `newQueue`: counters zero, a new subscription list. -/
def newQueue (destination : String) : Queue :=
  { destination := destination, totalCount := 0, currentCount := 0,
    subs := client.NewSubscriptionList }

/-- The method `GetStatus`: report the counters, then reset `currentCount`. -/
def Queue.GetStatus (q : Queue) (m : Mem) : status.QueueStatus × Queue :=
  ({ Dest := q.destination,
     MessageCount := m.qstore.Count q.destination,
     TotalCount := q.totalCount,
     CurrentCount := q.currentCount,
     SubscriptionCount := q.subs.Len },
   { q with currentCount := 0 })

/-- The method `Subscribe`: dequeue a frame for the destination of the
subscription; with no frame the subscription joins the list, with a frame the
frame is sent to it. The in-memory storage never returns an error. -/
def Queue.Subscribe (q : Queue) (sub : Nat) (m : Mem) : Except String (Queue × Mem) :=
  match m.qstore.Dequeue (m.subs sub).Destination with
  | (none, st) => .ok ({ q with subs := q.subs.Add sub }, { m with qstore := st })
  | (some f, st) =>
    match client.SendQueueFrame { m with qstore := st } sub f with
    | .error e => .error e
    | .ok m1 => .ok (q, m1)

/-- The method `Unsubscribe`. -/
def Queue.Unsubscribe (q : Queue) (sub : Nat) : Queue :=
  { q with subs := q.subs.Remove sub }

/-- The method `Enqueue`: bump both counters, take a subscription from the
list; with none the frame goes to the storage under the destination of the
queue, otherwise it is sent to the subscription. -/
def Queue.Enqueue (q : Queue) (f : frame.Frame) (m : Mem) : Except String (Queue × Mem) :=
  let q1 := { q with totalCount := wrapInt64 (q.totalCount + 1),
                     currentCount := wrapInt64 (q.currentCount + 1) }
  match q1.subs.Get with
  | (none, sl) =>
    .ok ({ q1 with subs := sl }, { m with qstore := m.qstore.Enqueue q1.destination f })
  | (some sub, sl) =>
    match client.SendQueueFrame m sub f with
    | .error e => .error e
    | .ok m1 => .ok ({ q1 with subs := sl }, m1)

/-- The method `Requeue`: take a subscription from the list; with none the
frame goes to the front of the storage under the destination of the queue,
otherwise it is sent to the subscription. -/
def Queue.Requeue (q : Queue) (f : frame.Frame) (m : Mem) : Except String (Queue × Mem) :=
  match q.subs.Get with
  | (none, sl) =>
    .ok ({ q with subs := sl }, { m with qstore := m.qstore.Requeue q.destination f })
  | (some sub, sl) =>
    match client.SendQueueFrame m sub f with
    | .error e => .error e
    | .ok m1 => .ok ({ q with subs := sl }, m1)

/-- A call of one of the four routing methods of a queue. -/
inductive Call where
  | Subscribe (sub : Nat)
  | Unsubscribe (sub : Nat)
  | Enqueue (f : frame.Frame)
  | Requeue (f : frame.Frame)
deriving DecidableEq, Repr

/-- Perform one call on a queue. -/
def Call.apply (c : Call) (s : Queue × Mem) : Except String (Queue × Mem) :=
  match c with
  | .Subscribe sub => s.1.Subscribe sub s.2
  | .Unsubscribe sub => .ok (s.1.Unsubscribe sub, s.2)
  | .Enqueue f => s.1.Enqueue f s.2
  | .Requeue f => s.1.Requeue f s.2

/-- Perform a sequence of calls, first call first; a panic ends the run. -/
def run : List Call → Queue × Mem → Except String (Queue × Mem)
  | [], s => .ok s
  | c :: cs, s =>
    match c.apply s with
    | .error e => .error e
    | .ok s1 => run cs s1

/-- Every `Subscribe` call of the sequence is made with a subscription that
has no pending frame at the time of the call. -/
def subscribesIdle : List Call → Queue × Mem → Prop
  | [], _ => True
  | c :: cs, s =>
    (match c with
      | .Subscribe sub => (s.2.subs sub).frame = none
      | _ => True) ∧
    (match c.apply s with
      | .error _ => True
      | .ok s1 => subscribesIdle cs s1)

/-- Modelled from the spec: the queue manager, whose declaration is not among
the sources: the queues by destination name. -/
structure Manager where
  queues : String → Option Queue

/-- Modelled from the spec: `NewManager` knows no queue. -/
def NewManager : Manager := ⟨fun _ => none⟩

/-- Store the state of the queue object registered under a name. -/
def Manager.put (qm : Manager) (destination : String) (q : Queue) : Manager :=
  ⟨fun d => if d = destination then some q else qm.queues d⟩

/-- Modelled from the spec: `Find(name)` returns the existing queue or lazily
constructs one and registers it. -/
def Manager.Find (qm : Manager) (destination : String) : Queue × Manager :=
  match qm.queues destination with
  | some q => (q, qm)
  | none => (newQueue destination, qm.put destination (newQueue destination))

end queue

/-! ## Package topic -/

namespace topic

/-- Modelled from the spec: the topic, whose declaration is not among the
sources: a destination name and the list of all current subscribers. -/
structure Topic where
  destination : String
  subs : client.SubscriptionList
deriving DecidableEq, Repr

/-- Modelled from the spec: a new topic has no subscriber. -/
def newTopic (destination : String) : Topic :=
  { destination := destination, subs := client.NewSubscriptionList }

/-- Modelled from the spec: `Subscribe(s)` adds to the subscribers. -/
def Topic.Subscribe (t : Topic) (sub : Nat) : Topic :=
  { t with subs := t.subs.Add sub }

/-- Modelled from the spec: `Unsubscribe(s)` removes. -/
def Topic.Unsubscribe (t : Topic) (sub : Nat) : Topic :=
  { t with subs := t.subs.Remove sub }

/-- Send one frame to each subscription of a list in turn. -/
def sendAll (f : frame.Frame) : List Nat → Mem → Except String Mem
  | [], m => .ok m
  | r :: rs, m =>
    match client.SendTopicFrame m r f with
    | .error e => .error e
    | .ok m1 => sendAll f rs m1

/-- Modelled from the spec: `Enqueue(f)` hands the frame, stamped with the
subscription header of each subscriber, to the connection of each subscriber;
subscribers stay in the list. -/
def Topic.Enqueue (t : Topic) (f : frame.Frame) (m : Mem) : Except String Mem :=
  sendAll f t.subs.subs m

/-- Modelled from the spec: the topic manager, whose declaration is not among
the sources: the topics by destination name. -/
structure Manager where
  topics : String → Option Topic

/-- Modelled from the spec: `NewManager` knows no topic. -/
def NewManager : Manager := ⟨fun _ => none⟩

/-- Store the state of the topic object registered under a name. -/
def Manager.put (tm : Manager) (destination : String) (t : Topic) : Manager :=
  ⟨fun d => if d = destination then some t else tm.topics d⟩

/-- Modelled from the spec: `Find(name)` returns the existing topic or lazily
constructs one and registers it. -/
def Manager.Find (tm : Manager) (destination : String) : Topic × Manager :=
  match tm.topics destination with
  | some t => (t, tm)
  | none => (newTopic destination, tm.put destination (newTopic destination))

end topic

/-! ## Package server: the request processor -/

namespace client

/-- Modelled from the spec: the typed request a connection emits to the
dispatcher, whose declaration is not among the sources. Each operation carries
the field the dispatcher reads for it: the subscription, the frame, or the
connection. -/
inductive Request where
  | SubscribeOp (Sub : Nat)
  | UnsubscribeOp (Sub : Nat)
  | EnqueueOp (Frame : frame.Frame)
  | RequeueOp (Frame : frame.Frame)
  | DisconnectedOp (Conn : Nat)
deriving DecidableEq, Repr

end client

namespace server

/-- The function `isQueueDestination`: `strings.HasPrefix(dest, QueuePrefix)`.
The constant `QueuePrefix` is declared outside the sources and is a
parameter. -/
def isQueueDestination (QueuePrefix : String) (dest : String) : Bool :=
  QueuePrefix.data.isPrefixOf dest.data

/-- The struct `requestProcessor`: the two managers and the connections table
(connection references by connection id). The channel, the server handle and
the stop flag take no part in the routing. -/
structure requestProcessor where
  tm : topic.Manager
  qm : queue.Manager
  connections : Int → Option Nat

/-- The Go builtin `delete` on the connections table. -/
def deleteConn (connections : Int → Option Nat) (key : Int) : Int → Option Nat :=
  fun k => if k = key then none else connections k

/-- One iteration of the loop of `Serve` for a request `r` received on the
channel of the processor: the switch on the operation. -/
def requestProcessor.Serve (QueuePrefix : String) (proc : requestProcessor)
    (r : client.Request) (m : Mem) : Except String (requestProcessor × Mem) :=
  match r with
  | .SubscribeOp sub =>
    let dest := (m.subs sub).Destination
    if isQueueDestination QueuePrefix dest then
      let (q, qm) := proc.qm.Find dest
      match q.Subscribe sub m with
      | .error e => .error e
      | .ok (q1, m1) => .ok ({ proc with qm := qm.put dest q1 }, m1)
    else
      let (t, tm) := proc.tm.Find dest
      .ok ({ proc with tm := tm.put dest (t.Subscribe sub) }, m)
  | .UnsubscribeOp sub =>
    let dest := (m.subs sub).Destination
    if isQueueDestination QueuePrefix dest then
      let (q, qm) := proc.qm.Find dest
      .ok ({ proc with qm := qm.put dest (q.Unsubscribe sub) }, m)
    else
      let (t, tm) := proc.tm.Find dest
      .ok ({ proc with tm := tm.put dest (t.Unsubscribe sub) }, m)
  | .EnqueueOp f =>
    match f.Header.Contains frame.Destination with
    | none => .error "missing destination"
    | some destination =>
      if isQueueDestination QueuePrefix destination then
        let (q, qm) := proc.qm.Find destination
        match q.Enqueue f m with
        | .error e => .error e
        | .ok (q1, m1) => .ok ({ proc with qm := qm.put destination q1 }, m1)
      else
        let (t, tm) := proc.tm.Find destination
        match t.Enqueue f m with
        | .error e => .error e
        | .ok m1 => .ok ({ proc with tm := tm }, m1)
  | .RequeueOp f =>
    match f.Header.Contains frame.Destination with
    | none => .error "missing destination"
    | some destination =>
      if isQueueDestination QueuePrefix destination then
        let (q, qm) := proc.qm.Find destination
        match q.Requeue f m with
        | .error e => .error e
        | .ok (q1, m1) => .ok ({ proc with qm := qm.put destination q1 }, m1)
      else
        .ok (proc, m)
  | .DisconnectedOp c =>
    .ok ({ proc with connections := deleteConn proc.connections (m.conns c).Id }, m)

end server

/-! ## Package stomp: the frame of `frame.go` and its writer -/

namespace stomp

/-- The slice `colonSlice`. -/
def colonSlice : List Nat := [58]

/-- The slice `newlineSlice`. -/
def newlineSlice : List Nat := [10]

/-- The slice `nullSlice`. -/
def nullSlice : List Nat := [0]

/-- The Go conversion `[]byte(s)`: the UTF-8 bytes of a string. -/
def bytesOf (s : String) : List Nat :=
  s.data.flatMap (fun c => (String.utf8EncodeChar c).map UInt8.toNat)

/-- The struct `Header`: a name and the encoded value bytes. -/
structure Header where
  Name : String
  value : List Nat
deriving DecidableEq, Repr

/-- The method `ValueBytes`. -/
def Header.ValueBytes (h : Header) : List Nat := h.value

/-- The struct `Frame` of `frame.go`. -/
structure Frame where
  Command : String
  Headers : List Header
  Body : List Nat
deriving DecidableEq, Repr

/-- The interface `io.Writer` over a writer state: `Write` returns the new
state, the count of bytes written and the error, if any. -/
structure Writer (σ : Type) where
  Write : σ → List Nat → σ × Int × Option String

/-- The method `Header.WriteTo`: three writes (name, colon, value), each
adding its count to `n`; an error ends the method. -/
def Header.WriteTo {σ : Type} (wr : Writer σ) (h : Header) (writer : σ) :
    σ × Int × Option String :=
  match wr.Write writer (bytesOf h.Name) with
  | (w1, count, some err) => (w1, wrapInt64 (0 + count), some err)
  | (w1, count, none) =>
    let n := wrapInt64 (0 + count)
    match wr.Write w1 colonSlice with
    | (w2, count, some err) => (w2, wrapInt64 (n + count), some err)
    | (w2, count, none) =>
      let n := wrapInt64 (n + count)
      match wr.Write w2 h.value with
      | (w3, count, err) => (w3, wrapInt64 (n + count), err)

/-- The loop `for _, h := range f.Headers` of `Frame.WriteTo`. -/
def writeHeaders {σ : Type} (wr : Writer σ) :
    List Header → σ → Int → σ × Int × Option String
  | [], w, n => (w, n, none)
  | h :: hs, w, n =>
    match h.WriteTo wr w with
    | (w1, count64, some err) => (w1, wrapInt64 (n + count64), some err)
    | (w1, count64, none) => writeHeaders wr hs w1 (wrapInt64 (n + count64))

/-- The method `Frame.WriteTo`: the command, a newline, the headers, the body
when it is not empty, and the final NUL byte; an error ends the method. -/
def Frame.WriteTo {σ : Type} (wr : Writer σ) (f : Frame) (w : σ) :
    σ × Int × Option String :=
  match wr.Write w (bytesOf f.Command) with
  | (w1, count, some err) => (w1, wrapInt64 (0 + count), some err)
  | (w1, count, none) =>
    let n := wrapInt64 (0 + count)
    match wr.Write w1 newlineSlice with
    | (w2, count, some err) => (w2, wrapInt64 (n + count), some err)
    | (w2, count, none) =>
      let n := wrapInt64 (n + count)
      match writeHeaders wr f.Headers w2 n with
      | (w3, n, some err) => (w3, n, some err)
      | (w3, n, none) =>
        if f.Body.length > 0 then
          match wr.Write w3 f.Body with
          | (w4, count, some err) => (w4, wrapInt64 (n + count), some err)
          | (w4, count, none) =>
            let n := wrapInt64 (n + count)
            match wr.Write w4 nullSlice with
            | (w5, count, err) => (w5, wrapInt64 (n + count), err)
        else
          match wr.Write w3 nullSlice with
          | (w5, count, err) => (w5, wrapInt64 (n + count), err)

/-- The loop of `FindHeader`. -/
def findHeaderLoop (name : String) : List Header → Option Header
  | [] => none
  | v :: vs => if v.Name = name then some v else findHeaderLoop name vs

/-- The method `FindHeader`: the first header whose name is `name`, or nil
(`none`). -/
def Frame.FindHeader (f : Frame) (name : String) : Option Header :=
  findHeaderLoop name f.Headers

/-- A writer that never fails: it appends the bytes to a buffer and reports
all of them written. -/
def bufferWriter : Writer (List Nat) :=
  ⟨fun buf p => (buf ++ p, p.length, none)⟩

/-- The wire format in the words of the specification: the command, a newline,
then for each header in order its name, a colon, its encoded value and a
newline, then one newline ending the header block, then the body, then a
single NUL byte. -/
def wireFormat (f : Frame) : List Nat :=
  bytesOf f.Command ++ [10] ++
    f.Headers.flatMap (fun h => bytesOf h.Name ++ [58] ++ h.value ++ [10]) ++
    [10] ++ f.Body ++ [0]

end stomp

/-! ## Package auth -/

namespace auth

/-- The struct `AuthParams`. -/
structure AuthParams where
  Login : String
  Passcode : String
deriving DecidableEq, Repr

/-- A Go `map[string]string`: the entries, one per key. -/
structure StringMap where
  entries : List (String × String)
deriving DecidableEq, Repr

/-- The result of `make(map[string]string)`. -/
def StringMap.make : StringMap := ⟨[]⟩

/-- The Go builtin `len` on a map. -/
def StringMap.len (mp : StringMap) : Nat := mp.entries.length

/-- The Go lookup `value, ok := mp[key]`; `none` is `ok == false`. -/
def StringMap.lookup (mp : StringMap) (key : String) : Option String :=
  (mp.entries.find? (fun e => e.1 = key)).map (fun e => e.2)

/-- Replace the value of the entry with the key, or add an entry. -/
def setKey (key value : String) : List (String × String) → List (String × String)
  | [] => [(key, value)]
  | e :: es => if e.1 = key then (key, value) :: es else e :: setKey key value es

/-- The Go assignment `mp[key] = value`. -/
def StringMap.set (mp : StringMap) (key value : String) : StringMap :=
  ⟨setKey key value mp.entries⟩

/-- The struct `AuthDB`; the logger is not part of the embedding. -/
structure AuthDB where
  configAuthDB : String
  db : StringMap
deriving DecidableEq, Repr

/-- The method `Authenticate`. -/
def AuthDB.Authenticate (a : AuthDB) (login passcode : String) : Bool :=
  match a.db.lookup login with
  | some pwd => if pwd = passcode then true else false
  | none => false

/-- The loop of `initAuthDB` over the entries read from the file: an entry
whose login is already in the map is skipped. -/
def fillDataMap : List AuthParams → StringMap → StringMap
  | [], dataMap => dataMap
  | userAuth :: rest, dataMap =>
    if dataMap.len ≠ 0 ∧ (dataMap.lookup userAuth.Login).isSome then
      fillDataMap rest dataMap
    else
      fillDataMap rest (dataMap.set userAuth.Login userAuth.Passcode)

/-- The method `initAuthDB`, from the point where the file has been read and
unmarshalled into `authData`. -/
def AuthDB.initAuthDB (a : AuthDB) (authData : List AuthParams) : AuthDB :=
  { a with db := fillDataMap authData StringMap.make }

/-- The constructor `NewAuth`, given the entries the file unmarshals to. -/
def NewAuth (fileWithLogins : String) (authData : List AuthParams) : AuthDB :=
  ({ configAuthDB := fileWithLogins, db := StringMap.make } : AuthDB).initAuthDB authData

end auth

/-! ## Package server: the configuration -/

namespace server

/-- The fields of the struct `Server` that the configuration reads. The struct
is declared outside the sources; `Authenticator` is an interface with the one
method `Authenticate(login, passcode) bool`, nil when none is configured. -/
structure Server where
  HeartBeat : Int
  Authenticator : Option (String → String → Bool)

/-- The struct `config`. -/
structure config where
  server : Server

/-- The constructor `newConfig`. -/
def newConfig (s : Server) : config := { server := s }

/-- The method `HeartBeat`; the constant `DefaultHeartBeat` is declared outside
the sources and is a parameter. -/
def config.HeartBeat (DefaultHeartBeat : Int) (c : config) : Int :=
  if c.server.HeartBeat = 0 then DefaultHeartBeat else c.server.HeartBeat

/-- The method `Authenticate` of the configuration. -/
def config.Authenticate (c : config) (login passcode : String) : Bool :=
  match c.server.Authenticator with
  | some authenticator => authenticator login passcode
  | none => true

end server

/-! ## Subscriptions: the state at the end of a call that may panic -/

namespace client

/-- The method `setSubscriptionHeader` with the frame as it is when the call
ends, and the panic message when it ends in a panic. -/
def Subscription.setSubscriptionHeaderTraced (s : Subscription) (f : frame.Frame) :
    frame.Frame × Option String :=
  match s.frame with
  | some _ => (f, some "subscription already has a frame pending")
  | none => ({ f with Header := f.Header.Set frame.Subscription s.id }, none)

/-- The method `SendQueueFrame` with the memory and the frame as they are when
the call ends, and the panic message when it ends in a panic. -/
def SendQueueFrameTraced (m : Mem) (r : Nat) (f : frame.Frame) :
    Mem × frame.Frame × Option String :=
  match (m.subs r).setSubscriptionHeaderTraced f with
  | (f1, some p) => (m, f1, some p)
  | (f1, none) =>
    let m1 := m.setSub r { m.subs r with frame := some f1 }
    let c := (m1.subs r).conn
    (m1.setConn c { m1.conns c with subChannel := (m1.conns c).subChannel ++ [r] }, f1, none)

/-- The method `SendTopicFrame` with the memory and the frame as they are when
the call ends, and the panic message when it ends in a panic. -/
def SendTopicFrameTraced (m : Mem) (r : Nat) (f : frame.Frame) :
    Mem × frame.Frame × Option String :=
  match (m.subs r).setSubscriptionHeaderTraced f with
  | (f1, some p) => (m, f1, some p)
  | (f1, none) =>
    let c := (m.subs r).conn
    (m.setConn c ((m.conns c).Send f1 (m.subs r).dest), f1, none)

end client

/-! ## Subscribers of a queue: Subscribe calls and acknowledgements -/

namespace queue

/-- What the subscribers of a queue do after frames were enqueued: a
subscription subscribes, or its connection acknowledges the frame the
subscription holds, after which the same subscription may subscribe again. -/
inductive SubscriberStep where
  | Subscribe (sub : Nat)
  | Ack (sub : Nat)
deriving DecidableEq, Repr

/-- Modelled from the spec: on ack the connection clears the subscription, so
that it holds no pending frame; the connection code is not among the sources.
The re-adding to the queue is the Subscribe call that follows. -/
def ackClear (m : Mem) (sub : Nat) : Mem :=
  m.setSub sub { m.subs sub with frame := none }

/-- The subscriptions of the Subscribe calls of a sequence, in order. -/
def subscribersOf : List SubscriberStep → List Nat
  | [] => []
  | .Subscribe sub :: rest => sub :: subscribersOf rest
  | .Ack _ :: rest => subscribersOf rest

/-- Perform the steps, first step first; for each Subscribe call record the
subscription and the pending frame it holds when the call returns. A panic
ends the run. -/
def runSubscribers : List SubscriberStep → Queue × Mem →
    Except String (List (Nat × Option frame.Frame) × (Queue × Mem))
  | [], s => .ok ([], s)
  | .Subscribe sub :: rest, s =>
    match s.1.Subscribe sub s.2 with
    | .error e => .error e
    | .ok s1 =>
      match runSubscribers rest s1 with
      | .error e => .error e
      | .ok (obs, s2) => .ok ((sub, (s1.2.subs sub).frame) :: obs, s2)
  | .Ack sub :: rest, s => runSubscribers rest (s.1, ackClear s.2 sub)

/-- Every Subscribe call of the steps is made with a subscription that has no
pending frame at the time of the call. -/
def subscribersIdle : List SubscriberStep → Queue × Mem → Prop
  | [], _ => True
  | .Subscribe sub :: rest, s =>
    (s.2.subs sub).frame = none ∧
    (match s.1.Subscribe sub s.2 with
      | .error _ => True
      | .ok s1 => subscribersIdle rest s1)
  | .Ack sub :: rest, s => subscribersIdle rest (s.1, ackClear s.2 sub)

end queue

/-! ## Predicates and sample data used in the statements -/

/-- The waiting list has no duplicate, and every waiting subscription has no
pending frame and finds no stored frame under its own destination. -/
def waitingIdle (s : queue.Queue × Mem) : Prop :=
  s.1.subs.subs.Nodup ∧
  ∀ r ∈ s.1.subs.subs, (s.2.subs r).frame = none ∧ s.2.qstore.frames (s.2.subs r).dest = []

/-- The frame `f` as a subscription with id `id` receives it: its
`subscription` header is set to `id`. -/
def stamped (f : frame.Frame) (id : String) : frame.Frame :=
  { f with Header := f.Header.Set frame.Subscription id }

/-- Frame `f` was handed to the subscription referenced by `r` between the
memories `m` and `m1`: the subscription holds `f`, stamped with its id, as its
pending frame and was sent on the channel of its connection; no other
subscription and no other connection changed. -/
def handedTo (m m1 : Mem) (r : Nat) (f : frame.Frame) : Prop :=
  m1.subs r = { m.subs r with frame := some (stamped f (m.subs r).id) } ∧
  (∀ x, x ≠ r → m1.subs x = m.subs x) ∧
  m1.conns (m.subs r).conn =
    { m.conns (m.subs r).conn with
      subChannel := (m.conns (m.subs r).conn).subChannel ++ [r] } ∧
  (∀ c, c ≠ (m.subs r).conn → m1.conns c = m.conns c)

/-- Between the processors `proc` and `proc1` nothing but the queue registered
under `d` may differ: the topic manager and the connections table are the
same, and so is every queue under another name. -/
def onlyQueueTouched (proc proc1 : server.requestProcessor) (d : String) : Prop :=
  proc1.tm = proc.tm ∧ proc1.connections = proc.connections ∧
  ∀ e, e ≠ d → proc1.qm.queues e = proc.qm.queues e

/-- Between the processors `proc` and `proc1` nothing but the topic registered
under `d` may differ: the queue manager and the connections table are the
same, and so is every topic under another name. -/
def onlyTopicTouched (proc proc1 : server.requestProcessor) (d : String) : Prop :=
  proc1.qm = proc.qm ∧ proc1.connections = proc.connections ∧
  ∀ e, e ≠ d → proc1.tm.topics e = proc.tm.topics e

/-- The number of `Enqueue` calls in a sequence of calls. -/
def enqueueCount : List queue.Call → Nat
  | [] => 0
  | .Enqueue _ :: cs => enqueueCount cs + 1
  | _ :: cs => enqueueCount cs

namespace demo

/-- Sample subscriptions: references 0, 1 and 2 subscribe to `/queue/x`,
reference 3 to `/queue/y`, every other reference to `/topic/t`. -/
def subOf : Nat → client.Subscription
  | 0 => client.newSubscription 0 "/queue/x" "a" "client-individual"
  | 1 => client.newSubscription 0 "/queue/x" "b" "client"
  | 2 => client.newSubscription 1 "/queue/x" "c" "auto"
  | 3 => client.newSubscription 1 "/queue/y" "d" "auto"
  | _ => client.newSubscription 2 "/topic/t" "e" "auto"

/-- Sample memory: the sample subscriptions, connections with nothing sent,
and an empty storage. -/
def mem : Mem :=
  { subs := subOf, conns := fun r => ⟨r, [], []⟩, qstore := queue.NewMemoryQueueStorage }

/-- Sample frame number `n` for `/queue/x`. -/
def msg (n : Nat) : frame.Frame :=
  ⟨"SEND", ⟨[("destination", "/queue/x")]⟩, [n]⟩

/-- The sample memory after subscription 0 received sample frame 1. -/
def memPending : Mem :=
  { subs := fun x => if x = 0 then { subOf 0 with frame := some (stamped (msg 1) "a") }
                     else subOf x,
    conns := fun x => if x = 0 then ⟨0, [0], []⟩ else ⟨x, [], []⟩,
    qstore := queue.NewMemoryQueueStorage }

/-- The sample memory after subscription 0 received sample frame 1 and sample
frame 2 was stored. -/
def memAfter : Mem :=
  { memPending with qstore := ⟨fun d => if d = "/queue/x" then [msg 2] else []⟩ }

/-- The queue `/queue/x` after two frames were enqueued and nobody waits. -/
def queueAfter : queue.Queue :=
  { destination := "/queue/x", totalCount := 2, currentCount := 2, subs := ⟨[]⟩ }

/-- The queue `/queue/x` after one frame was enqueued and subscription 1
waits. -/
def queueWaiting : queue.Queue :=
  { destination := "/queue/x", totalCount := 1, currentCount := 1, subs := ⟨[1]⟩ }

/-- A sample processor: the queue `/queue/x` with subscription 1 waiting, the
topic `/topic/t` with subscription 4 subscribed, and the connections 0, 1 and
2 registered under their ids. -/
def proc : server.requestProcessor :=
  { tm := ⟨fun d => if d = "/topic/t" then some ⟨"/topic/t", ⟨[4]⟩⟩ else none⟩,
    qm := ⟨fun d => if d = "/queue/x" then some queueWaiting else none⟩,
    connections := fun k => if k = 0 then some 0 else if k = 1 then some 1
                            else if k = 2 then some 2 else none }

/-- A sample frame addressed to the topic `/topic/t`. -/
def topicMsg : frame.Frame :=
  ⟨"MESSAGE", ⟨[("destination", "/topic/t")]⟩, [7]⟩

/-- A sample frame of `frame.go`: a SEND with one header and the body `hi`. -/
def sendFrame : stomp.Frame :=
  ⟨"SEND", [⟨"destination", stomp.bytesOf "/queue/x"⟩], stomp.bytesOf "hi"⟩

/-- A sample frame of `frame.go` with a repeated header name. -/
def repeatedFrame : stomp.Frame :=
  ⟨"MESSAGE", [⟨"a", [1]⟩, ⟨"b", [2]⟩, ⟨"b", [3]⟩, ⟨"a", [4]⟩], []⟩

/-- Sample credentials: the login `u` appears twice. -/
def logins : List auth.AuthParams :=
  [⟨"u", "p"⟩, ⟨"v", "q"⟩, ⟨"u", "other"⟩]

end demo

/-! ## Lemmas: sending a queue frame -/

theorem sendQueueFrame_ok_iff (m m1 : Mem) (r : Nat) (f : frame.Frame) :
    client.SendQueueFrame m r f = .ok m1 ↔
      (m.subs r).frame = none ∧
      m1 = (m.setSub r { m.subs r with
              frame := some { f with Header := f.Header.Set frame.Subscription (m.subs r).id } }).setConn
            (m.subs r).conn
            { m.conns (m.subs r).conn with
              subChannel := (m.conns (m.subs r).conn).subChannel ++ [r] } := by
  unfold client.SendQueueFrame client.Subscription.setSubscriptionHeader
  cases hf : (m.subs r).frame with
  | some g => simp
  | none =>
    simp only [Mem.setSub, Mem.setConn, if_true, Except.ok.injEq, true_and]
    constructor
    · intro h; exact h.symm
    · intro h; exact h.symm

theorem sendQueueFrame_pending (m : Mem) (r : Nat) (f g : frame.Frame)
    (h : (m.subs r).frame = some g) :
    client.SendQueueFrame m r f = .error "subscription already has a frame pending" := by
  unfold client.SendQueueFrame client.Subscription.setSubscriptionHeader
  simp [h]

theorem sendQueueFrame_effect {m m1 : Mem} {r : Nat} {f : frame.Frame}
    (h : client.SendQueueFrame m r f = .ok m1) :
    (m.subs r).frame = none ∧
    m1.qstore = m.qstore ∧
    (∀ x, x ≠ r → m1.subs x = m.subs x) ∧
    m1.subs r = { m.subs r with
      frame := some { f with Header := f.Header.Set frame.Subscription (m.subs r).id } } ∧
    (∀ x, (m1.subs x).dest = (m.subs x).dest) := by
  rw [sendQueueFrame_ok_iff] at h
  obtain ⟨h0, rfl⟩ := h
  refine ⟨h0, rfl, ?_, ?_, ?_⟩
  · intro x hx; simp [Mem.setSub, Mem.setConn, hx]
  · simp [Mem.setSub, Mem.setConn]
  · intro x
    by_cases hx : x = r
    · subst hx; simp [Mem.setSub, Mem.setConn]
    · simp [Mem.setSub, Mem.setConn, hx]

/-! ## Lemmas: the four queue methods -/

theorem subscribe_empty (q : queue.Queue) (sub : Nat) (m : Mem)
    (h : m.qstore.frames (m.subs sub).dest = []) :
    q.Subscribe sub m = .ok ({ q with subs := q.subs.Add sub }, m) := by
  simp [queue.Queue.Subscribe, queue.Storage.Dequeue, client.Subscription.Destination, h]

theorem subscribe_frame (q : queue.Queue) (sub : Nat) (m : Mem) (f : frame.Frame)
    (rest : List frame.Frame) (h : m.qstore.frames (m.subs sub).dest = f :: rest) :
    q.Subscribe sub m =
      match client.SendQueueFrame
          { m with qstore := m.qstore.put (m.subs sub).dest rest } sub f with
      | .error e => .error e
      | .ok m1 => .ok (q, m1) := by
  simp [queue.Queue.Subscribe, queue.Storage.Dequeue, client.Subscription.Destination, h]

theorem enqueue_empty (q : queue.Queue) (f : frame.Frame) (m : Mem)
    (h : q.subs.subs = []) :
    q.Enqueue f m =
      .ok ({ q with totalCount := wrapInt64 (q.totalCount + 1),
                    currentCount := wrapInt64 (q.currentCount + 1) },
           { m with qstore := m.qstore.Enqueue q.destination f }) := by
  simp [queue.Queue.Enqueue, client.SubscriptionList.Get, h]

theorem enqueue_waiting (q : queue.Queue) (f : frame.Frame) (m : Mem) (sub : Nat)
    (rest : List Nat) (h : q.subs.subs = sub :: rest) :
    q.Enqueue f m =
      match client.SendQueueFrame m sub f with
      | .error e => .error e
      | .ok m1 =>
        .ok ({ q with totalCount := wrapInt64 (q.totalCount + 1),
                      currentCount := wrapInt64 (q.currentCount + 1),
                      subs := ⟨rest⟩ }, m1) := by
  simp [queue.Queue.Enqueue, client.SubscriptionList.Get, h]

theorem requeue_empty (q : queue.Queue) (f : frame.Frame) (m : Mem)
    (h : q.subs.subs = []) :
    q.Requeue f m = .ok (q, { m with qstore := m.qstore.Requeue q.destination f }) := by
  simp [queue.Queue.Requeue, client.SubscriptionList.Get, h]

theorem requeue_waiting (q : queue.Queue) (f : frame.Frame) (m : Mem) (sub : Nat)
    (rest : List Nat) (h : q.subs.subs = sub :: rest) :
    q.Requeue f m =
      match client.SendQueueFrame m sub f with
      | .error e => .error e
      | .ok m1 => .ok ({ q with subs := ⟨rest⟩ }, m1) := by
  simp [queue.Queue.Requeue, client.SubscriptionList.Get, h]

/-! ## Lemmas: what a successful call preserves -/

theorem put_frames_same (st : queue.Storage) (d : String) (fs : List frame.Frame) :
    (st.put d fs).frames d = fs := by
  simp [queue.Storage.put]

theorem put_frames_other (st : queue.Storage) (d e : String) (fs : List frame.Frame)
    (h : e ≠ d) : (st.put d fs).frames e = st.frames e := by
  simp [queue.Storage.put, h]

theorem apply_keeps_names (c : queue.Call) (s s1 : queue.Queue × Mem)
    (h : c.apply s = .ok s1) :
    s1.1.destination = s.1.destination ∧
    ∀ x, (s1.2.subs x).dest = (s.2.subs x).dest := by
  obtain ⟨q, m⟩ := s
  cases c with
  | Subscribe sub =>
    simp only [queue.Call.apply] at h
    cases hd : m.qstore.frames (m.subs sub).dest with
    | nil =>
      rw [subscribe_empty q sub m hd] at h
      cases h
      exact ⟨rfl, fun _ => rfl⟩
    | cons f rest =>
      rw [subscribe_frame q sub m f rest hd] at h
      split at h
      · cases h
      · rename_i m1 hs
        cases h
        exact ⟨rfl, (sendQueueFrame_effect hs).2.2.2.2⟩
  | Unsubscribe sub =>
    simp only [queue.Call.apply] at h
    cases h
    exact ⟨rfl, fun _ => rfl⟩
  | Enqueue f =>
    simp only [queue.Call.apply] at h
    cases hl : q.subs.subs with
    | nil =>
      rw [enqueue_empty q f m hl] at h
      cases h
      exact ⟨rfl, fun _ => rfl⟩
    | cons sub rest =>
      rw [enqueue_waiting q f m sub rest hl] at h
      split at h
      · cases h
      · rename_i m1 hs
        cases h
        exact ⟨rfl, (sendQueueFrame_effect hs).2.2.2.2⟩
  | Requeue f =>
    simp only [queue.Call.apply] at h
    cases hl : q.subs.subs with
    | nil =>
      rw [requeue_empty q f m hl] at h
      cases h
      exact ⟨rfl, fun _ => rfl⟩
    | cons sub rest =>
      rw [requeue_waiting q f m sub rest hl] at h
      split at h
      · cases h
      · rename_i m1 hs
        cases h
        exact ⟨rfl, (sendQueueFrame_effect hs).2.2.2.2⟩

/-- A queue state in which stored frames for the destination of the queue
exclude waiting subscriptions. -/
theorem apply_keeps_storage_excludes_waiting (c : queue.Call) (s s1 : queue.Queue × Mem)
    (hinv : s.2.qstore.frames s.1.destination ≠ [] → s.1.subs.subs = [])
    (hdest : ∀ sub, c = .Subscribe sub → (s.2.subs sub).dest = s.1.destination)
    (h : c.apply s = .ok s1) :
    s1.2.qstore.frames s1.1.destination ≠ [] → s1.1.subs.subs = [] := by
  obtain ⟨q, m⟩ := s
  simp only at hinv hdest
  cases c with
  | Subscribe sub =>
    have hd0 := hdest sub rfl
    simp only [queue.Call.apply] at h
    cases hd : m.qstore.frames (m.subs sub).dest with
    | nil =>
      rw [subscribe_empty q sub m hd] at h
      cases h
      intro hne
      rw [hd0] at hd
      exact absurd hd hne
    | cons f rest =>
      rw [subscribe_frame q sub m f rest hd] at h
      split at h
      · cases h
      · rename_i m1 hs
        cases h
        intro _
        apply hinv
        rw [← hd0, hd]
        simp
  | Unsubscribe sub =>
    simp only [queue.Call.apply] at h
    cases h
    intro hne
    simp [queue.Queue.Unsubscribe, client.SubscriptionList.Remove, hinv hne]
  | Enqueue f =>
    simp only [queue.Call.apply] at h
    cases hl : q.subs.subs with
    | nil =>
      rw [enqueue_empty q f m hl] at h
      cases h
      intro _
      exact hl
    | cons sub rest =>
      rw [enqueue_waiting q f m sub rest hl] at h
      split at h
      · cases h
      · rename_i m1 hs
        cases h
        intro hne
        simp only at hne
        rw [(sendQueueFrame_effect hs).2.1] at hne
        rw [hinv hne] at hl
        cases hl
  | Requeue f =>
    simp only [queue.Call.apply] at h
    cases hl : q.subs.subs with
    | nil =>
      rw [requeue_empty q f m hl] at h
      cases h
      intro _
      exact hl
    | cons sub rest =>
      rw [requeue_waiting q f m sub rest hl] at h
      split at h
      · cases h
      · rename_i m1 hs
        cases h
        intro hne
        simp only at hne
        rw [(sendQueueFrame_effect hs).2.1] at hne
        rw [hinv hne] at hl
        cases hl

theorem run_keeps_storage_excludes_waiting (calls : List queue.Call) :
    ∀ (s s1 : queue.Queue × Mem),
      (s.2.qstore.frames s.1.destination ≠ [] → s.1.subs.subs = []) →
      (∀ sub, queue.Call.Subscribe sub ∈ calls → (s.2.subs sub).dest = s.1.destination) →
      queue.run calls s = .ok s1 →
      (s1.2.qstore.frames s1.1.destination ≠ [] → s1.1.subs.subs = []) := by
  induction calls with
  | nil =>
    intro s s1 hinv _ h
    simp only [queue.run] at h
    cases h
    exact hinv
  | cons c cs ih =>
    intro s s1 hinv hdest h
    simp only [queue.run] at h
    split at h
    · cases h
    · rename_i s2 hc
      have hk := apply_keeps_names c s s2 hc
      apply ih s2 s1 _ _ h
      · exact apply_keeps_storage_excludes_waiting c s s2 hinv
          (fun sub hsub => hdest sub (by simp [hsub])) hc
      · intro sub hsub
        rw [hk.1, hk.2]
        exact hdest sub (by simp [hsub])

theorem waitingIdle_tail (q : queue.Queue) (m m1 : Mem) (sub : Nat) (rest : List Nat)
    (f : frame.Frame) (hl : q.subs.subs = sub :: rest) (hinv : waitingIdle (q, m))
    (hs : client.SendQueueFrame m sub f = .ok m1) (q1 : queue.Queue)
    (hq1 : q1.subs.subs = rest) : waitingIdle (q1, m1) := by
  obtain ⟨hnd, hall⟩ := hinv
  simp only at hnd hall
  rw [hl] at hnd hall
  have he := sendQueueFrame_effect hs
  refine ⟨?_, ?_⟩
  · simp only [hq1]
    exact (List.nodup_cons.mp hnd).2
  · intro r hr
    simp only [hq1] at hr
    have hne : r ≠ sub := by
      intro heq
      subst heq
      exact (List.nodup_cons.mp hnd).1 hr
    have := hall r (List.mem_cons_of_mem _ hr)
    simp only [he.2.2.1 r hne, he.2.1]
    exact this

theorem apply_keeps_waitingIdle (c : queue.Call) (s s1 : queue.Queue × Mem)
    (hinv : waitingIdle s)
    (hidle : ∀ sub, c = .Subscribe sub → (s.2.subs sub).frame = none)
    (h : c.apply s = .ok s1) : waitingIdle s1 := by
  obtain ⟨q, m⟩ := s
  cases c with
  | Subscribe sub =>
    have h0 := hidle sub rfl
    simp only at h0
    simp only [queue.Call.apply] at h
    cases hd : m.qstore.frames (m.subs sub).dest with
    | nil =>
      rw [subscribe_empty q sub m hd] at h
      cases h
      obtain ⟨hnd, hall⟩ := hinv
      simp only at hnd hall
      by_cases hmem : sub ∈ q.subs.subs
      · simp only [waitingIdle, client.SubscriptionList.Add, hmem, if_true]
        exact ⟨hnd, hall⟩
      · simp only [waitingIdle, client.SubscriptionList.Add, hmem, if_false]
        refine ⟨?_, ?_⟩
        · rw [List.nodup_append]
          refine ⟨hnd, List.nodup_singleton _, ?_⟩
          intro a ha hb
          simp only [List.mem_singleton] at hb
          subst hb
          exact hmem ha
        · intro r hr
          rw [List.mem_append, List.mem_singleton] at hr
          rcases hr with hr | hr
          · exact hall r hr
          · subst hr
            exact ⟨h0, hd⟩
    | cons f rest =>
      rw [subscribe_frame q sub m f rest hd] at h
      split at h
      · cases h
      · rename_i m1 hs
        cases h
        obtain ⟨hnd, hall⟩ := hinv
        simp only at hnd hall
        have he := sendQueueFrame_effect hs
        refine ⟨hnd, ?_⟩
        intro r hr
        simp only at hr
        have hr0 := hall r hr
        have hne : r ≠ sub := by
          intro heq
          subst heq
          rw [hd] at hr0
          exact absurd hr0.2 (by simp)
        have hdne : (m.subs r).dest ≠ (m.subs sub).dest := by
          intro heq
          rw [heq, hd] at hr0
          exact absurd hr0.2 (by simp)
        simp only [he.2.2.1 r hne, he.2.1]
        exact ⟨hr0.1, by rw [put_frames_other _ _ _ _ hdne]; exact hr0.2⟩
  | Unsubscribe sub =>
    simp only [queue.Call.apply] at h
    cases h
    obtain ⟨hnd, hall⟩ := hinv
    simp only at hnd hall
    refine ⟨?_, ?_⟩
    · simp only [queue.Queue.Unsubscribe, client.SubscriptionList.Remove]
      exact hnd.filter _
    · intro r hr
      simp only [queue.Queue.Unsubscribe, client.SubscriptionList.Remove] at hr
      exact hall r (List.mem_of_mem_filter hr)
  | Enqueue f =>
    simp only [queue.Call.apply] at h
    cases hl : q.subs.subs with
    | nil =>
      rw [enqueue_empty q f m hl] at h
      cases h
      simp [waitingIdle, hl]
    | cons sub rest =>
      rw [enqueue_waiting q f m sub rest hl] at h
      split at h
      · cases h
      · rename_i m1 hs
        cases h
        exact waitingIdle_tail q m m1 sub rest f hl hinv hs _ rfl
  | Requeue f =>
    simp only [queue.Call.apply] at h
    cases hl : q.subs.subs with
    | nil =>
      rw [requeue_empty q f m hl] at h
      cases h
      simp [waitingIdle, hl]
    | cons sub rest =>
      rw [requeue_waiting q f m sub rest hl] at h
      split at h
      · cases h
      · rename_i m1 hs
        cases h
        exact waitingIdle_tail q m m1 sub rest f hl hinv hs _ rfl

theorem run_keeps_waitingIdle (calls : List queue.Call) :
    ∀ (s s1 : queue.Queue × Mem), waitingIdle s → queue.subscribesIdle calls s →
      queue.run calls s = .ok s1 → waitingIdle s1 := by
  induction calls with
  | nil =>
    intro s s1 hinv _ h
    simp only [queue.run] at h
    cases h
    exact hinv
  | cons c cs ih =>
    intro s s1 hinv hidle h
    simp only [queue.run] at h
    simp only [queue.subscribesIdle] at hidle
    split at h
    · cases h
    · rename_i s2 hc
      rw [hc] at hidle
      apply ih s2 s1 _ hidle.2 h
      apply apply_keeps_waitingIdle c s s2 hinv _ hc
      intro sub hsub
      subst hsub
      exact hidle.1

/-! ## Lemmas: runs -/

theorem run_append (a b : List queue.Call) :
    ∀ s : queue.Queue × Mem, queue.run (a ++ b) s =
      match queue.run a s with
      | .error e => .error e
      | .ok s1 => queue.run b s1 := by
  induction a with
  | nil => intro s; simp [queue.run]
  | cons c cs ih =>
    intro s
    simp only [List.cons_append, queue.run]
    cases c.apply s with
    | error e => rfl
    | ok s1 => exact ih s1

theorem subscribesIdle_append (a b : List queue.Call) :
    ∀ s s1 : queue.Queue × Mem, queue.subscribesIdle (a ++ b) s →
      queue.run a s = .ok s1 → queue.subscribesIdle b s1 := by
  induction a with
  | nil =>
    intro s s1 h hr
    simp only [queue.run] at hr
    cases hr
    exact h
  | cons c cs ih =>
    intro s s1 h hr
    simp only [List.cons_append, queue.subscribesIdle] at h
    simp only [queue.run] at hr
    split at hr
    · cases hr
    · rename_i s2 hc
      rw [hc] at h
      exact ih s2 s1 h.2 hr

theorem apply_subs_effect (c : queue.Call) (s s1 : queue.Queue × Mem)
    (h : c.apply s = .ok s1) :
    s1.2.subs = s.2.subs ∨
    ∃ (m : Mem) (r : Nat) (f : frame.Frame),
      m.subs = s.2.subs ∧ client.SendQueueFrame m r f = .ok s1.2 := by
  obtain ⟨q, m⟩ := s
  cases c with
  | Subscribe sub =>
    simp only [queue.Call.apply] at h
    cases hd : m.qstore.frames (m.subs sub).dest with
    | nil =>
      rw [subscribe_empty q sub m hd] at h
      cases h
      exact Or.inl rfl
    | cons f rest =>
      rw [subscribe_frame q sub m f rest hd] at h
      split at h
      · cases h
      · rename_i m1 hs
        cases h
        exact Or.inr ⟨{ m with qstore := m.qstore.put (m.subs sub).dest rest }, sub, f, rfl, hs⟩
  | Unsubscribe sub =>
    simp only [queue.Call.apply] at h
    cases h
    exact Or.inl rfl
  | Enqueue f =>
    simp only [queue.Call.apply] at h
    cases hl : q.subs.subs with
    | nil =>
      rw [enqueue_empty q f m hl] at h
      cases h
      exact Or.inl rfl
    | cons sub rest =>
      rw [enqueue_waiting q f m sub rest hl] at h
      split at h
      · cases h
      · rename_i m1 hs
        cases h
        exact Or.inr ⟨m, sub, f, rfl, hs⟩
  | Requeue f =>
    simp only [queue.Call.apply] at h
    cases hl : q.subs.subs with
    | nil =>
      rw [requeue_empty q f m hl] at h
      cases h
      exact Or.inl rfl
    | cons sub rest =>
      rw [requeue_waiting q f m sub rest hl] at h
      split at h
      · cases h
      · rename_i m1 hs
        cases h
        exact Or.inr ⟨m, sub, f, rfl, hs⟩

theorem apply_keeps_pending (c : queue.Call) (s s1 : queue.Queue × Mem)
    (h : c.apply s = .ok s1) (x : Nat) (g : frame.Frame)
    (hx : (s.2.subs x).frame = some g) : s1.2.subs x = s.2.subs x := by
  rcases apply_subs_effect c s s1 h with h1 | ⟨m, r, f, hm, hs⟩
  · rw [h1]
  · have he := sendQueueFrame_effect hs
    have hne : x ≠ r := by
      intro heq
      subst heq
      rw [hm, hx] at he
      cases he.1
    rw [he.2.2.1 x hne, hm]

theorem run_keeps_pending (calls : List queue.Call) :
    ∀ (s s1 : queue.Queue × Mem), queue.run calls s = .ok s1 →
      ∀ (x : Nat) (g : frame.Frame), (s.2.subs x).frame = some g →
        s1.2.subs x = s.2.subs x := by
  induction calls with
  | nil =>
    intro s s1 h x g _
    simp only [queue.run] at h
    cases h
    rfl
  | cons c cs ih =>
    intro s s1 h x g hx
    simp only [queue.run] at h
    split at h
    · cases h
    · rename_i s2 hc
      have h2 := apply_keeps_pending c s s2 hc x g hx
      rw [ih s2 s1 h x g (by rw [h2]; exact hx), h2]

theorem run_enqueue_all (fs : List frame.Frame) :
    ∀ (q : queue.Queue) (m : Mem), q.subs.subs = [] →
      ∃ q1 : queue.Queue,
        queue.run (fs.map queue.Call.Enqueue) (q, m) =
          .ok (q1, { m with qstore :=
                 m.qstore.put q.destination (m.qstore.frames q.destination ++ fs) }) ∧
        q1.destination = q.destination ∧ q1.subs.subs = [] := by
  induction fs with
  | nil =>
    intro q m hq
    refine ⟨q, ?_, rfl, hq⟩
    simp only [List.map_nil, queue.run, List.append_nil]
    congr 2
    cases m with
    | mk subs conns qstore =>
      cases qstore with
      | mk frames =>
        simp only [queue.Storage.put, Mem.mk.injEq, true_and]
        congr 1
        funext d
        by_cases hd : d = q.destination
        · simp [hd]
        · simp [hd]
  | cons f fs ih =>
    intro q m hq
    obtain ⟨q1, h1, h2, h3⟩ := ih
      { q with totalCount := wrapInt64 (q.totalCount + 1),
               currentCount := wrapInt64 (q.currentCount + 1) }
      { m with qstore := m.qstore.Enqueue q.destination f } hq
    refine ⟨q1, ?_, h2, h3⟩
    simp only [List.map_cons, queue.run, queue.Call.apply]
    rw [enqueue_empty q f m hq]
    simp only
    rw [h1]
    congr 2
    simp only [queue.Storage.Enqueue, queue.Storage.put, Mem.mk.injEq, true_and]
    congr 1
    funext d
    by_cases hd : d = q.destination
    · simp [hd]
    · simp [hd]

theorem run_subscribe_all (ss : List Nat) :
    ∀ (fs tail : List frame.Frame) (q : queue.Queue) (m : Mem),
      ss.length = fs.length →
      m.qstore.frames q.destination = fs ++ tail →
      (∀ r ∈ ss, (m.subs r).dest = q.destination) →
      queue.subscribesIdle (ss.map queue.Call.Subscribe) (q, m) →
      ∃ m1 : Mem,
        queue.run (ss.map queue.Call.Subscribe) (q, m) = .ok (q, m1) ∧
        m1.qstore.frames q.destination = tail ∧
        ∀ (k r : Nat) (f : frame.Frame), ss[k]? = some r → fs[k]? = some f →
          (m1.subs r).frame = some (stamped f (m1.subs r).id) := by
  induction ss with
  | nil =>
    intro fs tail q m hlen hst _ _
    have hfs : fs = [] := List.length_eq_zero.mp hlen.symm
    subst hfs
    refine ⟨m, rfl, by simpa using hst, ?_⟩
    intro k r f hk
    simp at hk
  | cons s ss ih =>
    intro fs tail q m hlen hst hdest hidle
    cases fs with
    | nil => simp at hlen
    | cons f fs =>
      have hds : (m.subs s).dest = q.destination := hdest s (by simp)
      have hfr : m.qstore.frames (m.subs s).dest = f :: (fs ++ tail) := by
        rw [hds, hst]; rfl
      simp only [List.map_cons, queue.subscribesIdle] at hidle
      obtain ⟨hnone, hrest⟩ := hidle
      obtain ⟨m2, hm2⟩ : ∃ m2, client.SendQueueFrame
          { m with qstore := m.qstore.put (m.subs s).dest (fs ++ tail) } s f = .ok m2 :=
        ⟨_, (sendQueueFrame_ok_iff _ _ s f).mpr ⟨hnone, rfl⟩⟩
      have happ : (queue.Call.Subscribe s).apply (q, m) = .ok (q, m2) := by
        simp only [queue.Call.apply]
        rw [subscribe_frame q s m f (fs ++ tail) hfr, hm2]
      rw [happ] at hrest
      have he := sendQueueFrame_effect hm2
      obtain ⟨m1, hrun, hq1, hall⟩ := ih fs tail q m2 (by simpa using hlen)
        (by rw [he.2.1, ← hds]; exact put_frames_same _ _ _)
        (fun r hr => by rw [he.2.2.2.2 r]; exact hdest r (by simp [hr]))
        hrest
      refine ⟨m1, ?_, hq1, ?_⟩
      · simp only [List.map_cons, queue.run]
        rw [happ]
        exact hrun
      · intro k r g hk hg
        cases k with
        | zero =>
          simp only [List.getElem?_cons_zero, Option.some.injEq] at hk hg
          subst hk hg
          have h2 : m2.subs s = { m.subs s with frame := some (stamped f (m.subs s).id) } :=
            he.2.2.2.1
          have hstab := run_keeps_pending (ss.map queue.Call.Subscribe) (q, m2) (q, m1) hrun
            s (stamped f (m.subs s).id) (by rw [h2])
          simp only at hstab
          rw [hstab, h2]
        | succ k =>
          simp only [List.getElem?_cons_succ] at hk hg
          exact hall k r g hk hg

/-! ## Lemmas: handing a frame over -/

theorem sendQueueFrame_hands {m m1 : Mem} {r : Nat} {f : frame.Frame}
    (h : client.SendQueueFrame m r f = .ok m1) :
    handedTo m m1 r f ∧ m1.qstore = m.qstore := by
  rw [sendQueueFrame_ok_iff] at h
  obtain ⟨_, rfl⟩ := h
  refine ⟨⟨?_, ?_, ?_, ?_⟩, rfl⟩
  · simp [Mem.setSub, Mem.setConn, stamped]
  · intro x hx; simp [Mem.setSub, Mem.setConn, hx]
  · simp [Mem.setSub, Mem.setConn]
  · intro c hc; simp [Mem.setSub, Mem.setConn, hc]

theorem sendQueueFrame_idle (m : Mem) (r : Nat) (f : frame.Frame)
    (h : (m.subs r).frame = none) :
    ∃ m1, client.SendQueueFrame m r f = .ok m1 ∧ handedTo m m1 r f ∧ m1.qstore = m.qstore :=
  have h1 := (sendQueueFrame_ok_iff m _ r f).mpr ⟨h, rfl⟩
  ⟨_, h1, sendQueueFrame_hands h1⟩

/-! ## Lemmas: headers -/

theorem find_setEntry_same (key value : String) (es : List (String × String)) :
    (frame.setEntry key value es).find? (fun e => e.1 == key) = some (key, value) := by
  induction es with
  | nil => simp [frame.setEntry]
  | cons e es ih =>
    by_cases he : e.1 = key
    · simp [frame.setEntry, he]
    · simp [frame.setEntry, he, ih]

theorem find_setEntry_other (key value other : String) (h : other ≠ key)
    (es : List (String × String)) :
    (frame.setEntry key value es).find? (fun e => e.1 == other) =
      es.find? (fun e => e.1 == other) := by
  induction es with
  | nil => simp [frame.setEntry, h.symm]
  | cons e es ih =>
    by_cases he : e.1 = key
    · have hne : ¬ e.1 = other := fun h1 => h (h1.symm.trans he)
      simp [frame.setEntry, he, (h.symm : ¬ key = other), hne]
    · by_cases ho : e.1 = other
      · simp [frame.setEntry, he, h, List.find?_cons, ho]
      · simp [frame.setEntry, he, List.find?_cons, ho, ih]

theorem contains_set_same (h : frame.Header) (key value : String) :
    (h.Set key value).Contains key = some value := by
  simp [frame.Header.Set, frame.Header.Contains, find_setEntry_same]

theorem contains_set_other (h : frame.Header) (key value other : String)
    (hne : other ≠ key) : (h.Set key value).Contains other = h.Contains other := by
  simp only [frame.Header.Set, frame.Header.Contains, find_setEntry_other key value other hne]

/-! ## Lemmas: routing -/

theorem isQueueDestination_iff (QueuePrefix dest : String) :
    server.isQueueDestination QueuePrefix dest = true ↔ QueuePrefix.data <+: dest.data := by
  simp [server.isQueueDestination, List.isPrefixOf_iff_prefix]

theorem queue_find_put (qm : queue.Manager) (d e : String) (q1 : queue.Queue) :
    ((qm.Find d).2.put d q1).queues e = if e = d then some q1 else qm.queues e := by
  simp only [queue.Manager.Find, queue.Manager.put]
  cases h : qm.queues d with
  | some q => rfl
  | none =>
    by_cases he : e = d
    · simp [he]
    · simp [he]

theorem topic_find_put (tm : topic.Manager) (d e : String) (t1 : topic.Topic) :
    ((tm.Find d).2.put d t1).topics e = if e = d then some t1 else tm.topics e := by
  simp only [topic.Manager.Find, topic.Manager.put]
  cases h : tm.topics d with
  | some t => rfl
  | none =>
    by_cases he : e = d
    · simp [he]
    · simp [he]

theorem topic_find_registers (tm : topic.Manager) (d e : String) :
    (tm.Find d).2.topics e = if e = d then some (tm.Find d).1 else tm.topics e := by
  simp only [topic.Manager.Find, topic.Manager.put]
  cases h : tm.topics d with
  | some t =>
    by_cases he : e = d
    · simp [he, h]
    · simp [he]
  | none =>
    by_cases he : e = d
    · simp [he]
    · simp [he]

theorem sendTopicFrame_keeps (m m1 : Mem) (r : Nat) (f : frame.Frame)
    (h : client.SendTopicFrame m r f = .ok m1) :
    m1.qstore = m.qstore ∧ m1.subs = m.subs := by
  unfold client.SendTopicFrame at h
  split at h
  · cases h
  · cases h
    exact ⟨rfl, rfl⟩

theorem sendAll_keeps (f : frame.Frame) (rs : List Nat) :
    ∀ m m1 : Mem, topic.sendAll f rs m = .ok m1 →
      m1.qstore = m.qstore ∧ m1.subs = m.subs := by
  induction rs with
  | nil =>
    intro m m1 h
    simp only [topic.sendAll] at h
    cases h
    exact ⟨rfl, rfl⟩
  | cons r rs ih =>
    intro m m1 h
    simp only [topic.sendAll] at h
    split at h
    · cases h
    · rename_i m2 hs
      have h1 := sendTopicFrame_keeps m m2 r f hs
      have h2 := ih m2 m1 h
      exact ⟨h2.1.trans h1.1, h2.2.trans h1.2⟩

theorem serve_subscribe_queue (QueuePrefix : String) (proc : server.requestProcessor)
    (sub : Nat) (m : Mem)
    (h : server.isQueueDestination QueuePrefix (m.subs sub).dest = true) :
    server.requestProcessor.Serve QueuePrefix proc (.SubscribeOp sub) m =
      match (proc.qm.Find (m.subs sub).dest).1.Subscribe sub m with
      | .error e => .error e
      | .ok (q1, m1) =>
        .ok ({ proc with qm := (proc.qm.Find (m.subs sub).dest).2.put (m.subs sub).dest q1 },
             m1) := by
  simp only [server.requestProcessor.Serve, client.Subscription.Destination, h, if_true]

theorem serve_subscribe_topic (QueuePrefix : String) (proc : server.requestProcessor)
    (sub : Nat) (m : Mem)
    (h : server.isQueueDestination QueuePrefix (m.subs sub).dest = false) :
    server.requestProcessor.Serve QueuePrefix proc (.SubscribeOp sub) m =
      .ok ({ proc with tm := ((proc.tm.Find (m.subs sub).dest).2.put (m.subs sub).dest
                ((proc.tm.Find (m.subs sub).dest).1.Subscribe sub)) }, m) := by
  simp [server.requestProcessor.Serve, client.Subscription.Destination, h]

theorem serve_unsubscribe_queue (QueuePrefix : String) (proc : server.requestProcessor)
    (sub : Nat) (m : Mem)
    (h : server.isQueueDestination QueuePrefix (m.subs sub).dest = true) :
    server.requestProcessor.Serve QueuePrefix proc (.UnsubscribeOp sub) m =
      .ok ({ proc with qm := ((proc.qm.Find (m.subs sub).dest).2.put (m.subs sub).dest
                ((proc.qm.Find (m.subs sub).dest).1.Unsubscribe sub)) }, m) := by
  simp [server.requestProcessor.Serve, client.Subscription.Destination, h]

theorem serve_unsubscribe_topic (QueuePrefix : String) (proc : server.requestProcessor)
    (sub : Nat) (m : Mem)
    (h : server.isQueueDestination QueuePrefix (m.subs sub).dest = false) :
    server.requestProcessor.Serve QueuePrefix proc (.UnsubscribeOp sub) m =
      .ok ({ proc with tm := ((proc.tm.Find (m.subs sub).dest).2.put (m.subs sub).dest
                ((proc.tm.Find (m.subs sub).dest).1.Unsubscribe sub)) }, m) := by
  simp [server.requestProcessor.Serve, client.Subscription.Destination, h]

theorem serve_enqueue_queue (QueuePrefix : String) (proc : server.requestProcessor)
    (f : frame.Frame) (m : Mem) (d : String)
    (hd : f.Header.Contains frame.Destination = some d)
    (h : server.isQueueDestination QueuePrefix d = true) :
    server.requestProcessor.Serve QueuePrefix proc (.EnqueueOp f) m =
      match (proc.qm.Find d).1.Enqueue f m with
      | .error e => .error e
      | .ok (q1, m1) => .ok ({ proc with qm := (proc.qm.Find d).2.put d q1 }, m1) := by
  simp only [server.requestProcessor.Serve, hd, h, if_true]

theorem serve_enqueue_topic (QueuePrefix : String) (proc : server.requestProcessor)
    (f : frame.Frame) (m : Mem) (d : String)
    (hd : f.Header.Contains frame.Destination = some d)
    (h : server.isQueueDestination QueuePrefix d = false) :
    server.requestProcessor.Serve QueuePrefix proc (.EnqueueOp f) m =
      match (proc.tm.Find d).1.Enqueue f m with
      | .error e => .error e
      | .ok m1 => .ok ({ proc with tm := (proc.tm.Find d).2 }, m1) := by
  simp [server.requestProcessor.Serve, hd, h]

theorem not_isQueueDestination (QueuePrefix dest : String)
    (h : ¬ QueuePrefix.data <+: dest.data) :
    server.isQueueDestination QueuePrefix dest = false := by
  cases hq : server.isQueueDestination QueuePrefix dest with
  | false => rfl
  | true => exact absurd ((isQueueDestination_iff _ _).mp hq) h

/-! ## Lemmas: writing a frame -/

theorem header_writeTo_buffer (h : stomp.Header) (buf : List Nat) :
    ∃ n : Int, h.WriteTo stomp.bufferWriter buf =
      (buf ++ stomp.bytesOf h.Name ++ [58] ++ h.value, n, none) :=
  ⟨_, rfl⟩

theorem writeHeaders_buffer (hs : List stomp.Header) :
    ∀ (buf : List Nat) (n : Int), ∃ n1 : Int,
      stomp.writeHeaders stomp.bufferWriter hs buf n =
        (buf ++ hs.flatMap (fun h => stomp.bytesOf h.Name ++ [58] ++ h.value), n1, none) := by
  induction hs with
  | nil =>
    intro buf n
    exact ⟨n, by simp [stomp.writeHeaders]⟩
  | cons h hs ih =>
    intro buf n
    obtain ⟨c, hc⟩ := header_writeTo_buffer h buf
    obtain ⟨n1, hn1⟩ := ih (buf ++ stomp.bytesOf h.Name ++ [58] ++ h.value)
      (wrapInt64 (n + c))
    refine ⟨n1, ?_⟩
    simp only [stomp.writeHeaders]
    rw [hc]
    simp only
    rw [hn1]
    simp [List.append_assoc]

/-- What `Frame.WriteTo` writes to a buffer, for every frame: no newline after
a header and none after the header block. -/
theorem writeTo_buffer (f : stomp.Frame) (buf : List Nat) :
    (f.WriteTo stomp.bufferWriter buf).1 =
      buf ++ (stomp.bytesOf f.Command ++ [10] ++
          f.Headers.flatMap (fun h => stomp.bytesOf h.Name ++ [58] ++ h.value) ++
          f.Body ++ [0]) ∧
    (f.WriteTo stomp.bufferWriter buf).2.2 = none := by
  obtain ⟨n1, hn1⟩ := writeHeaders_buffer f.Headers
    (buf ++ stomp.bytesOf f.Command ++ [10])
    (wrapInt64 (wrapInt64 (0 + ((stomp.bytesOf f.Command).length : Int)) +
      (([10] : List Nat).length : Int)))
  simp only [stomp.Frame.WriteTo, stomp.bufferWriter, stomp.newlineSlice,
    stomp.nullSlice] at hn1 ⊢
  rw [hn1]
  by_cases hb : f.Body.length > 0
  · simp only [hb, if_true, List.append_assoc, and_self]
  · have hnil : f.Body = [] := by
      cases hB : f.Body with
      | nil => rfl
      | cons b bs => simp [hB] at hb
    simp [hnil]

/-! ## Lemmas: finding a header -/

theorem findHeaderLoop_some (name : String) (hs : List stomp.Header) (h : stomp.Header) :
    stomp.findHeaderLoop name hs = some h ↔
      ∃ pre post, hs = pre ++ h :: post ∧ h.Name = name ∧ ∀ x ∈ pre, x.Name ≠ name := by
  induction hs with
  | nil => simp [stomp.findHeaderLoop]
  | cons v vs ih =>
    by_cases hv : v.Name = name
    · simp only [stomp.findHeaderLoop, hv, if_true, Option.some.injEq]
      constructor
      · intro heq
        subst heq
        exact ⟨[], vs, rfl, hv, by simp⟩
      · rintro ⟨pre, post, hsplit, _, hpre⟩
        cases pre with
        | nil =>
          simp only [List.nil_append, List.cons.injEq] at hsplit
          exact hsplit.1
        | cons p ps =>
          simp only [List.cons_append, List.cons.injEq] at hsplit
          exact absurd (hsplit.1 ▸ hv) (hpre p (by simp))
    · simp only [stomp.findHeaderLoop, hv, if_false, ih]
      constructor
      · rintro ⟨pre, post, hsplit, hn, hpre⟩
        refine ⟨v :: pre, post, by simp [hsplit], hn, ?_⟩
        intro x hx
        simp only [List.mem_cons] at hx
        rcases hx with rfl | hx
        · exact hv
        · exact hpre x hx
      · rintro ⟨pre, post, hsplit, hn, hpre⟩
        cases pre with
        | nil =>
          simp only [List.nil_append, List.cons.injEq] at hsplit
          exact absurd (hsplit.1 ▸ hn) hv
        | cons p ps =>
          simp only [List.cons_append, List.cons.injEq] at hsplit
          exact ⟨ps, post, hsplit.2, hn, fun x hx => hpre x (by simp [hx])⟩

theorem findHeaderLoop_none (name : String) (hs : List stomp.Header) :
    stomp.findHeaderLoop name hs = none ↔ ∀ x ∈ hs, x.Name ≠ name := by
  induction hs with
  | nil => simp [stomp.findHeaderLoop]
  | cons v vs ih =>
    by_cases hv : v.Name = name
    · simp [stomp.findHeaderLoop, hv]
    · simp [stomp.findHeaderLoop, hv, ih]

theorem wireFormat_length (f : stomp.Frame) :
    (stomp.wireFormat f).length =
      (stomp.bytesOf f.Command ++ [10] ++
          f.Headers.flatMap (fun h => stomp.bytesOf h.Name ++ [58] ++ h.value) ++
          f.Body ++ [0]).length + f.Headers.length + 1 := by
  have hl : ∀ hs : List stomp.Header,
      (hs.flatMap (fun h => stomp.bytesOf h.Name ++ [58] ++ h.value ++ [10])).length =
        (hs.flatMap (fun h => stomp.bytesOf h.Name ++ [58] ++ h.value)).length +
          hs.length := by
    intro hs
    induction hs with
    | nil => rfl
    | cons h hs ih =>
      simp only [List.flatMap_cons, List.length_append, List.length_cons, List.length_nil, ih]
      omega
  simp only [stomp.wireFormat, List.length_append, hl, List.length_cons, List.length_nil]
  omega

/-- For every frame the bytes `Frame.WriteTo` writes to a buffer differ from
the wire format: they are shorter by one byte per header and one more. -/
theorem writeTo_buffer_ne_wireFormat (f : stomp.Frame) (buf : List Nat) :
    (f.WriteTo stomp.bufferWriter buf).1 ≠ buf ++ stomp.wireFormat f := by
  intro h
  rw [(writeTo_buffer f buf).1] at h
  have hlen := congrArg List.length (List.append_cancel_left h)
  rw [wireFormat_length] at hlen
  omega

/-! ## Lemmas: the credential map -/

theorem lookup_of_len_zero (mp : auth.StringMap) (key : String) (h : mp.len = 0) :
    mp.lookup key = none := by
  have : mp.entries = [] := List.length_eq_zero.mp h
  simp [auth.StringMap.lookup, this]

theorem lookup_set_same (mp : auth.StringMap) (key value : String) :
    (mp.set key value).lookup key = some value := by
  obtain ⟨es⟩ := mp
  simp only [auth.StringMap.set, auth.StringMap.lookup]
  induction es with
  | nil => simp [auth.setKey]
  | cons e es ih =>
    by_cases he : e.1 = key
    · simp [auth.setKey, he]
    · simp only [auth.setKey, he, if_false, List.find?_cons, decide_False]
      exact ih

theorem lookup_set_other (mp : auth.StringMap) (key value other : String)
    (hne : other ≠ key) : (mp.set key value).lookup other = mp.lookup other := by
  obtain ⟨es⟩ := mp
  simp only [auth.StringMap.set, auth.StringMap.lookup]
  induction es with
  | nil => simp [auth.setKey, hne.symm]
  | cons e es ih =>
    by_cases he : e.1 = key
    · have hne2 : ¬ e.1 = other := fun h1 => hne (h1.symm.trans he)
      simp [auth.setKey, he, (hne.symm : ¬ key = other), hne2]
    · by_cases ho : e.1 = other
      · simp [auth.setKey, he, hne, List.find?_cons, ho]
      · simp only [auth.setKey, he, if_false, List.find?_cons, ho, decide_False]
        exact ih

theorem fillDataMap_lookup (authData : List auth.AuthParams) (key : String) :
    ∀ dataMap : auth.StringMap,
      (auth.fillDataMap authData dataMap).lookup key =
        match dataMap.lookup key with
        | some pwd => some pwd
        | none => (authData.find? (fun e => e.Login = key)).map (fun e => e.Passcode) := by
  induction authData with
  | nil =>
    intro dataMap
    simp only [auth.fillDataMap, List.find?_nil, Option.map_none']
    cases dataMap.lookup key <;> rfl
  | cons userAuth rest ih =>
    intro dataMap
    simp only [auth.fillDataMap]
    split
    · rename_i hskip
      rw [ih dataMap]
      cases hk : dataMap.lookup key with
      | some pwd => rfl
      | none =>
        have hne : ¬ userAuth.Login = key := by
          intro heq
          rw [heq, hk] at hskip
          simp at hskip
        simp [List.find?_cons, hne]
    · rename_i hset
      rw [ih (dataMap.set userAuth.Login userAuth.Passcode)]
      by_cases heq : userAuth.Login = key
      · subst heq
        have hk : dataMap.lookup userAuth.Login = none := by
          by_cases hlen : dataMap.len = 0
          · exact lookup_of_len_zero dataMap _ hlen
          · cases hl : dataMap.lookup userAuth.Login with
            | none => rfl
            | some p => exact absurd ⟨hlen, by simp [hl]⟩ hset
        simp [lookup_set_same, hk, List.find?_cons]
      · rw [lookup_set_other dataMap _ _ key (fun h => heq h.symm)]
        cases hk : dataMap.lookup key with
        | some pwd => rfl
        | none => simp [List.find?_cons, heq]

theorem find_some_iff_first (authData : List auth.AuthParams) (key : String)
    (e : auth.AuthParams) :
    authData.find? (fun x => x.Login = key) = some e ↔
      ∃ pre post, authData = pre ++ e :: post ∧ e.Login = key ∧
        ∀ x ∈ pre, x.Login ≠ key := by
  induction authData with
  | nil => simp
  | cons v vs ih =>
    by_cases hv : v.Login = key
    · simp only [List.find?_cons, hv, decide_True, Option.some.injEq]
      constructor
      · intro heq
        subst heq
        exact ⟨[], vs, rfl, hv, by simp⟩
      · rintro ⟨pre, post, hsplit, _, hpre⟩
        cases pre with
        | nil =>
          simp only [List.nil_append, List.cons.injEq] at hsplit
          exact hsplit.1
        | cons p ps =>
          simp only [List.cons_append, List.cons.injEq] at hsplit
          exact absurd (hsplit.1 ▸ hv) (hpre p (by simp))
    · simp only [List.find?_cons, hv, decide_False, ih]
      constructor
      · rintro ⟨pre, post, hsplit, hn, hpre⟩
        refine ⟨v :: pre, post, by simp [hsplit], hn, ?_⟩
        intro x hx
        simp only [List.mem_cons] at hx
        rcases hx with rfl | hx
        · exact hv
        · exact hpre x hx
      · rintro ⟨pre, post, hsplit, hn, hpre⟩
        cases pre with
        | nil =>
          simp only [List.nil_append, List.cons.injEq] at hsplit
          exact absurd (hsplit.1 ▸ hn) hv
        | cons p ps =>
          simp only [List.cons_append, List.cons.injEq] at hsplit
          exact ⟨ps, post, hsplit.2, hn, fun x hx => hpre x (by simp [hx])⟩

/-! ## Lemmas: the counters -/

theorem wrapInt64_succ (x : Int) : wrapInt64 (wrapInt64 x + 1) = wrapInt64 (x + 1) := by
  unfold wrapInt64
  omega

theorem wrapInt64_small (n : Nat) (h : n < 2 ^ 63) : wrapInt64 n = n := by
  unfold wrapInt64
  omega

theorem iterate_bump_zero (n : Nat) :
    (fun c : Int => wrapInt64 (c + 1))^[n] 0 = wrapInt64 n := by
  induction n with
  | zero => rfl
  | succ n ih =>
    rw [Function.iterate_succ_apply', ih, wrapInt64_succ]
    push_cast
    rfl

theorem apply_counters (c : queue.Call) (s s1 : queue.Queue × Mem)
    (h : c.apply s = .ok s1) :
    s1.1.totalCount = (fun x : Int => wrapInt64 (x + 1))^[enqueueCount [c]] s.1.totalCount ∧
    s1.1.currentCount =
      (fun x : Int => wrapInt64 (x + 1))^[enqueueCount [c]] s.1.currentCount := by
  obtain ⟨q, m⟩ := s
  cases c with
  | Subscribe sub =>
    simp only [queue.Call.apply, queue.Queue.Subscribe] at h
    split at h
    · cases h
      exact ⟨rfl, rfl⟩
    · split at h
      · cases h
      · cases h
        exact ⟨rfl, rfl⟩
  | Unsubscribe sub =>
    simp only [queue.Call.apply] at h
    cases h
    exact ⟨rfl, rfl⟩
  | Enqueue f =>
    simp only [queue.Call.apply, queue.Queue.Enqueue] at h
    split at h
    · cases h
      exact ⟨rfl, rfl⟩
    · split at h
      · cases h
      · cases h
        exact ⟨rfl, rfl⟩
  | Requeue f =>
    simp only [queue.Call.apply, queue.Queue.Requeue] at h
    split at h
    · cases h
      exact ⟨rfl, rfl⟩
    · split at h
      · cases h
      · cases h
        exact ⟨rfl, rfl⟩

theorem enqueueCount_cons (c : queue.Call) (cs : List queue.Call) :
    enqueueCount (c :: cs) = enqueueCount cs + enqueueCount [c] := by
  cases c <;> simp [enqueueCount]

theorem run_counters (calls : List queue.Call) :
    ∀ s s1 : queue.Queue × Mem, queue.run calls s = .ok s1 →
      s1.1.totalCount =
        (fun x : Int => wrapInt64 (x + 1))^[enqueueCount calls] s.1.totalCount ∧
      s1.1.currentCount =
        (fun x : Int => wrapInt64 (x + 1))^[enqueueCount calls] s.1.currentCount := by
  induction calls with
  | nil =>
    intro s s1 h
    simp only [queue.run] at h
    cases h
    exact ⟨rfl, rfl⟩
  | cons c cs ih =>
    intro s s1 h
    simp only [queue.run] at h
    split at h
    · cases h
    · rename_i s2 hc
      have h1 := apply_counters c s s2 hc
      have h2 := ih s2 s1 h
      rw [enqueueCount_cons, Function.iterate_add_apply, Function.iterate_add_apply,
        ← h1.1, ← h1.2]
      exact h2

/-! ## Lemmas: subscribers served in order -/

theorem sendQueueFrame_keeps_names {m m1 : Mem} {r : Nat} {f : frame.Frame}
    (h : client.SendQueueFrame m r f = .ok m1) (x : Nat) :
    (m1.subs x).id = (m.subs x).id ∧ (m1.subs x).dest = (m.subs x).dest := by
  have hh := (sendQueueFrame_hands h).1
  by_cases hx : x = r
  · subst hx
    rw [hh.1]
    exact ⟨rfl, rfl⟩
  · rw [hh.2.1 x hx]
    exact ⟨rfl, rfl⟩

theorem ackClear_keeps (m : Mem) (sub x : Nat) :
    ((queue.ackClear m sub).subs x).id = (m.subs x).id ∧
    ((queue.ackClear m sub).subs x).dest = (m.subs x).dest ∧
    (queue.ackClear m sub).qstore = m.qstore := by
  by_cases hx : x = sub
  · subst hx
    simp [queue.ackClear, Mem.setSub]
  · simp [queue.ackClear, Mem.setSub, hx]

theorem runSubscribers_fifo (steps : List queue.SubscriberStep) :
    ∀ (frames : List frame.Frame) (q : queue.Queue) (m : Mem),
      (∀ sub ∈ queue.subscribersOf steps, (m.subs sub).dest = q.destination) →
      m.qstore.frames q.destination = frames →
      queue.subscribersIdle steps (q, m) →
      ∃ (obs : List (Nat × Option frame.Frame)) (final : queue.Queue × Mem),
        queue.runSubscribers steps (q, m) = .ok (obs, final) ∧
        ∀ (k sub : Nat) (f : frame.Frame), (queue.subscribersOf steps)[k]? = some sub →
          frames[k]? = some f →
          obs[k]? = some (sub, some (stamped f (m.subs sub).id)) := by
  induction steps with
  | nil =>
    intro frames q m _ _ _
    refine ⟨[], (q, m), rfl, ?_⟩
    intro k sub f hk
    simp [queue.subscribersOf] at hk
  | cons st rest ih =>
    intro frames q m hdest hfr hidle
    cases st with
    | Ack a =>
      simp only [queue.subscribersOf] at hdest ⊢
      simp only [queue.subscribersIdle] at hidle
      have hk := ackClear_keeps m a
      obtain ⟨obs, final, hrun, hall⟩ := ih frames q (queue.ackClear m a)
        (fun sub hs => by rw [(hk sub).2.1]; exact hdest sub hs)
        (by rw [(hk 0).2.2]; exact hfr) hidle
      refine ⟨obs, final, ?_, ?_⟩
      · simp only [queue.runSubscribers]
        exact hrun
      · intro k sub f hks hf
        rw [← (hk sub).1]
        exact hall k sub f hks hf
    | Subscribe s =>
      simp only [queue.subscribersOf] at hdest ⊢
      simp only [queue.subscribersIdle] at hidle
      obtain ⟨hnone, hrest⟩ := hidle
      have hds : (m.subs s).dest = q.destination := hdest s (by simp)
      cases frames with
      | nil =>
        have hsub : q.Subscribe s m = .ok ({ q with subs := q.subs.Add s }, m) :=
          subscribe_empty q s m (by rw [hds]; exact hfr)
        rw [hsub] at hrest
        obtain ⟨obs, final, hrun, _⟩ := ih [] { q with subs := q.subs.Add s } m
          (fun sub hs => hdest sub (by simp [hs])) hfr hrest
        refine ⟨(s, (m.subs s).frame) :: obs, final, ?_, ?_⟩
        · simp only [queue.runSubscribers]
          rw [hsub]
          simp only
          rw [hrun]
        · intro k sub f _ hf
          simp at hf
      | cons f0 fr =>
        have hfr0 : m.qstore.frames (m.subs s).dest = f0 :: fr := by rw [hds]; exact hfr
        obtain ⟨m2, hm2, hh, hq⟩ := sendQueueFrame_idle
          { m with qstore := m.qstore.put (m.subs s).dest fr } s f0 hnone
        have hsub : q.Subscribe s m = .ok (q, m2) := by
          rw [subscribe_frame q s m f0 fr hfr0, hm2]
        rw [hsub] at hrest
        have hnames := fun x => sendQueueFrame_keeps_names hm2 x
        obtain ⟨obs, final, hrun, hall⟩ := ih fr q m2
          (fun sub hs => by rw [(hnames sub).2]; exact hdest sub (by simp [hs]))
          (by rw [hq, ← hds]; exact put_frames_same _ _ _) hrest
        refine ⟨(s, (m2.subs s).frame) :: obs, final, ?_, ?_⟩
        · simp only [queue.runSubscribers]
          rw [hsub]
          simp only
          rw [hrun]
        · intro k sub f hks hf
          cases k with
          | zero =>
            simp only [List.getElem?_cons_zero, Option.some.injEq] at hks hf ⊢
            subst hks hf
            rw [hh.1]
          | succ k =>
            simp only [List.getElem?_cons_succ] at hks hf ⊢
            have := hall k sub f hks hf
            rw [(hnames sub).1] at this
            exact this

/-! ## The claims -/

/-- C1: in every state reached from a newly created queue by Subscribe,
Unsubscribe, Enqueue and Requeue calls, where every subscribing subscription
has the destination of the queue, a non-empty storage for the destination of
the queue means an empty waiting list. -/
theorem storage_nonempty_waiting_empty (destination : String) (m0 : Mem)
    (calls : List queue.Call) (q : queue.Queue) (m : Mem)
    (hdest : ∀ sub, queue.Call.Subscribe sub ∈ calls → (m0.subs sub).dest = destination)
    (hrun : queue.run calls (queue.newQueue destination, m0) = .ok (q, m))
    (hne : m.qstore.frames q.destination ≠ []) :
    q.subs.subs = [] :=
  run_keeps_storage_excludes_waiting calls (queue.newQueue destination, m0) (q, m)
    (fun _ => rfl) hdest hrun hne

theorem storage_nonempty_waiting_empty_witness :
    (∀ sub, queue.Call.Subscribe sub ∈
        [queue.Call.Subscribe 0, .Enqueue (demo.msg 1), .Enqueue (demo.msg 2)] →
        (demo.mem.subs sub).dest = "/queue/x") ∧
    queue.run [queue.Call.Subscribe 0, .Enqueue (demo.msg 1), .Enqueue (demo.msg 2)]
        (queue.newQueue "/queue/x", demo.mem) = .ok (demo.queueAfter, demo.memAfter) ∧
    demo.memAfter.qstore.frames demo.queueAfter.destination ≠ [] ∧
    demo.queueAfter.subs.subs = [] :=
  have h1 : ∀ sub, queue.Call.Subscribe sub ∈
        [queue.Call.Subscribe 0, .Enqueue (demo.msg 1), .Enqueue (demo.msg 2)] →
        (demo.mem.subs sub).dest = "/queue/x" := by
    simp [demo.mem, demo.subOf, client.newSubscription]
  have h2 : demo.memAfter.qstore.frames demo.queueAfter.destination ≠ [] := by
    simp [demo.memAfter, demo.queueAfter]
  ⟨h1, rfl, h2,
   storage_nonempty_waiting_empty "/queue/x" demo.mem
     [queue.Call.Subscribe 0, .Enqueue (demo.msg 1), .Enqueue (demo.msg 2)]
     demo.queueAfter demo.memAfter h1 rfl h2⟩

/-- C2: in every state reached from a newly created queue by Subscribe,
Unsubscribe, Enqueue and Requeue calls, where each Subscribe is called with a
subscription that has no pending frame, no subscription with a pending frame
is in the waiting list. -/
theorem pending_not_waiting (destination : String) (m0 : Mem)
    (calls : List queue.Call) (q : queue.Queue) (m : Mem)
    (hidle : queue.subscribesIdle calls (queue.newQueue destination, m0))
    (hrun : queue.run calls (queue.newQueue destination, m0) = .ok (q, m))
    (r : Nat) (g : frame.Frame) (hpending : (m.subs r).frame = some g) :
    r ∉ q.subs.subs := by
  intro hr
  have h := run_keeps_waitingIdle calls (queue.newQueue destination, m0) (q, m)
    ⟨List.nodup_nil, fun _ hx => absurd hx (List.not_mem_nil _)⟩ hidle hrun
  rw [(h.2 r hr).1] at hpending
  cases hpending

theorem pending_not_waiting_witness :
    queue.subscribesIdle
        [queue.Call.Subscribe 0, .Subscribe 1, .Enqueue (demo.msg 1)]
        (queue.newQueue "/queue/x", demo.mem) ∧
    queue.run [queue.Call.Subscribe 0, .Subscribe 1, .Enqueue (demo.msg 1)]
        (queue.newQueue "/queue/x", demo.mem) = .ok (demo.queueWaiting, demo.memPending) ∧
    (demo.memPending.subs 0).frame = some (stamped (demo.msg 1) "a") ∧
    0 ∉ demo.queueWaiting.subs.subs :=
  have h1 : queue.subscribesIdle
        [queue.Call.Subscribe 0, .Subscribe 1, .Enqueue (demo.msg 1)]
        (queue.newQueue "/queue/x", demo.mem) := ⟨rfl, rfl, trivial, trivial⟩
  ⟨h1, rfl, rfl,
   pending_not_waiting "/queue/x" demo.mem
     [queue.Call.Subscribe 0, .Subscribe 1, .Enqueue (demo.msg 1)]
     demo.queueWaiting demo.memPending h1 rfl 0 _ rfl⟩

/-- C3: frames f1..fn are enqueued with Enqueue on a newly created queue that
has no subscriptions; the Enqueue calls return. Then subscriptions of the
queue (their destination is the destination of the queue, as for every
subscription the dispatcher subscribes to it) make Subscribe calls, each with
no pending frame at the time of its call; between the calls a connection may
acknowledge, so that the same subscription can subscribe again. The calls
return, and when the k-th Subscribe call returns its subscription holds exactly
the k-th stored frame, stamped with the subscription id. The stored frames are
those the storage held for the destination when the queue was created, if any,
followed by f1..fn: for a queue over a new storage the k-th call is handed
fk. -/
theorem fifo_delivery (destination : String) (m0 : Mem) (fs : List frame.Frame)
    (steps : List queue.SubscriberStep)
    (hdest : ∀ sub ∈ queue.subscribersOf steps, (m0.subs sub).dest = destination) :
    ∃ s1 : queue.Queue × Mem,
      queue.run (fs.map queue.Call.Enqueue) (queue.newQueue destination, m0) = .ok s1 ∧
      (queue.subscribersIdle steps s1 →
        ∃ (obs : List (Nat × Option frame.Frame)) (final : queue.Queue × Mem),
          queue.runSubscribers steps s1 = .ok (obs, final) ∧
          ∀ (k sub : Nat) (f : frame.Frame),
            (queue.subscribersOf steps)[k]? = some sub →
            (m0.qstore.frames destination ++ fs)[k]? = some f →
            obs[k]? = some (sub, some (stamped f (m0.subs sub).id))) := by
  obtain ⟨q1, hrun1, hd1, _⟩ := run_enqueue_all fs (queue.newQueue destination) m0 rfl
  have hd1 : q1.destination = destination := hd1
  refine ⟨_, hrun1, ?_⟩
  intro hidle
  have h := runSubscribers_fifo steps (m0.qstore.frames destination ++ fs) q1
    { m0 with qstore := (m0.qstore.put (queue.newQueue destination).destination
        (m0.qstore.frames (queue.newQueue destination).destination ++ fs)) }
    (fun sub hs => by rw [hd1]; exact hdest sub hs)
    (by rw [hd1]; exact put_frames_same _ _ _)
    hidle
  exact h

theorem fifo_delivery_witness :
    (∀ sub ∈ queue.subscribersOf
        [queue.SubscriberStep.Subscribe 0, .Ack 0, .Subscribe 0, .Ack 0, .Subscribe 0],
      (demo.mem.subs sub).dest = "/queue/x") ∧
    ∃ s1 : queue.Queue × Mem,
      queue.run ([demo.msg 1, demo.msg 2, demo.msg 3].map queue.Call.Enqueue)
        (queue.newQueue "/queue/x", demo.mem) = .ok s1 ∧
      queue.subscribersIdle
        [queue.SubscriberStep.Subscribe 0, .Ack 0, .Subscribe 0, .Ack 0, .Subscribe 0] s1 ∧
      ∃ (obs : List (Nat × Option frame.Frame)) (final : queue.Queue × Mem),
        queue.runSubscribers
          [queue.SubscriberStep.Subscribe 0, .Ack 0, .Subscribe 0, .Ack 0, .Subscribe 0] s1 =
          .ok (obs, final) ∧
        obs[0]? = some (0, some (stamped (demo.msg 1) "a")) ∧
        obs[1]? = some (0, some (stamped (demo.msg 2) "a")) ∧
        obs[2]? = some (0, some (stamped (demo.msg 3) "a")) := by
  have h1 : ∀ sub ∈ queue.subscribersOf
      [queue.SubscriberStep.Subscribe 0, .Ack 0, .Subscribe 0, .Ack 0, .Subscribe 0],
      (demo.mem.subs sub).dest = "/queue/x" := by
    intro sub hs
    simp only [queue.subscribersOf, List.mem_cons, List.mem_singleton, List.not_mem_nil,
      or_false] at hs
    rcases hs with rfl | rfl | rfl <;> rfl
  obtain ⟨s1, hrun, hserve⟩ := fifo_delivery "/queue/x" demo.mem
    [demo.msg 1, demo.msg 2, demo.msg 3]
    [queue.SubscriberStep.Subscribe 0, .Ack 0, .Subscribe 0, .Ack 0, .Subscribe 0] h1
  have hs1 : queue.run ([demo.msg 1, demo.msg 2, demo.msg 3].map queue.Call.Enqueue)
      (queue.newQueue "/queue/x", demo.mem) =
      .ok ({ destination := "/queue/x", totalCount := 3, currentCount := 3, subs := ⟨[]⟩ },
           { demo.mem with qstore :=
               (((demo.mem.qstore.Enqueue "/queue/x" (demo.msg 1)).Enqueue "/queue/x"
                 (demo.msg 2)).Enqueue "/queue/x" (demo.msg 3)) }) := rfl
  rw [hs1] at hrun
  cases hrun
  have hidle : queue.subscribersIdle
      [queue.SubscriberStep.Subscribe 0, .Ack 0, .Subscribe 0, .Ack 0, .Subscribe 0]
      ({ destination := "/queue/x", totalCount := 3, currentCount := 3, subs := ⟨[]⟩ },
       { demo.mem with qstore :=
           (((demo.mem.qstore.Enqueue "/queue/x" (demo.msg 1)).Enqueue "/queue/x"
             (demo.msg 2)).Enqueue "/queue/x" (demo.msg 3)) }) :=
    ⟨rfl, rfl, rfl, trivial⟩
  obtain ⟨obs, final, hobs, hall⟩ := hserve hidle
  exact ⟨h1, _, hs1, hidle, obs, final, hobs,
    hall 0 0 (demo.msg 1) rfl rfl, hall 1 0 (demo.msg 2) rfl rfl,
    hall 2 0 (demo.msg 3) rfl rfl⟩

/-- C5: Enqueue(f) does exactly one of two things. With a non-empty waiting
list it takes the head subscription off the list and hands f to it by
SendQueueFrame: whatever state Enqueue returns has the rest of the list as
waiting list, f handed to the head and to no other subscription, and the
storage unchanged; it returns exactly when the head has no pending frame
(otherwise SendQueueFrame panics). With an empty waiting list it returns, f is
appended to the storage for the destination of the queue, no other destination
changes, and no subscription or connection is touched. Both counters are
bumped either way. -/
theorem enqueue_delivers_or_stores (q : queue.Queue) (m : Mem) (f : frame.Frame) :
    (∀ (sub : Nat) (rest : List Nat), q.subs.subs = sub :: rest →
      (∀ s1 : queue.Queue × Mem, q.Enqueue f m = .ok s1 →
        s1.1 = { q with totalCount := wrapInt64 (q.totalCount + 1),
                        currentCount := wrapInt64 (q.currentCount + 1),
                        subs := ⟨rest⟩ } ∧
        handedTo m s1.2 sub f ∧ s1.2.qstore = m.qstore) ∧
      ((∃ s1 : queue.Queue × Mem, q.Enqueue f m = .ok s1) ↔ (m.subs sub).frame = none)) ∧
    (q.subs.subs = [] →
      ∃ m1 : Mem,
        q.Enqueue f m =
          .ok ({ q with totalCount := wrapInt64 (q.totalCount + 1),
                        currentCount := wrapInt64 (q.currentCount + 1) }, m1) ∧
        m1.subs = m.subs ∧ m1.conns = m.conns ∧
        m1.qstore.frames q.destination = m.qstore.frames q.destination ++ [f] ∧
        ∀ d, d ≠ q.destination → m1.qstore.frames d = m.qstore.frames d) := by
  refine ⟨?_, ?_⟩
  · intro sub rest hl
    rw [enqueue_waiting q f m sub rest hl]
    refine ⟨?_, ?_, ?_⟩
    · intro s1 h
      split at h
      · cases h
      · rename_i m1 hs
        cases h
        exact ⟨rfl, sendQueueFrame_hands hs⟩
    · rintro ⟨s1, h⟩
      split at h
      · cases h
      · rename_i m1 hs
        exact (sendQueueFrame_effect hs).1
    · intro hidle
      obtain ⟨m1, hs, _⟩ := sendQueueFrame_idle m sub f hidle
      rw [hs]
      exact ⟨_, rfl⟩
  · intro hl
    refine ⟨{ m with qstore := m.qstore.Enqueue q.destination f },
      enqueue_empty q f m hl, rfl, rfl, put_frames_same _ _ _, ?_⟩
    intro d hd
    exact put_frames_other _ _ _ _ hd

theorem enqueue_delivers_or_stores_witness :
    (demo.queueWaiting.subs.subs = [1] ∧ (demo.memPending.subs 1).frame = none ∧
      ∃ s1 : queue.Queue × Mem,
        demo.queueWaiting.Enqueue (demo.msg 2) demo.memPending = .ok s1 ∧
        s1.1 = { destination := "/queue/x", totalCount := 2, currentCount := 2,
                 subs := ⟨[]⟩ } ∧
        handedTo demo.memPending s1.2 1 (demo.msg 2) ∧
        s1.2.qstore = demo.memPending.qstore) ∧
    (demo.queueAfter.subs.subs = [] ∧
      ∃ m1 : Mem,
        demo.queueAfter.Enqueue (demo.msg 3) demo.memAfter =
          .ok ({ destination := "/queue/x", totalCount := 3, currentCount := 3,
                 subs := ⟨[]⟩ }, m1) ∧
        m1.subs = demo.memAfter.subs ∧ m1.conns = demo.memAfter.conns ∧
        m1.qstore.frames "/queue/x" = [demo.msg 2, demo.msg 3] ∧
        ∀ d, d ≠ "/queue/x" → m1.qstore.frames d = demo.memAfter.qstore.frames d) :=
  ⟨⟨rfl, rfl,
    (((enqueue_delivers_or_stores demo.queueWaiting demo.memPending (demo.msg 2)).1
        1 [] rfl).2.mpr rfl).imp
      (fun s1 h => ⟨h,
        ((enqueue_delivers_or_stores demo.queueWaiting demo.memPending (demo.msg 2)).1
          1 [] rfl).1 s1 h⟩)⟩,
   ⟨rfl, (enqueue_delivers_or_stores demo.queueAfter demo.memAfter (demo.msg 3)).2 rfl⟩⟩

/-- C6 (as stated, refuted): the storage holds a frame for the destination of
the queue `/queue/x`, and subscription 3, with no pending frame, subscribes;
its own destination is `/queue/y`, for which nothing is stored. The head frame
is neither removed nor handed over: the subscription joins the waiting list
and the storage is unchanged. -/
theorem subscribe_other_destination :
    demo.memAfter.qstore.frames demo.queueAfter.destination = [demo.msg 2] ∧
    (demo.memAfter.subs 3).frame = none ∧
    (demo.queueAfter.Subscribe 3 demo.memAfter).toOption.map
      (fun s => ((s.2.subs 3).frame, s.1.subs.subs, s.2.qstore.frames "/queue/x")) =
    some (none, [3], [demo.msg 2]) :=
  ⟨rfl, rfl, by decide⟩

/-- C6 (amended): for every queue q and every subscription s with no pending
frame, q.Subscribe(s) returns, and: if the storage holds a frame for the
destination of s, the head frame is removed from the storage, handed to s and
to no other subscription, no other destination changes, and the waiting list
is left as it was; otherwise s is in the waiting list afterwards and the
memory, the storage included, is unchanged. -/
theorem subscribe_takes_or_waits (q : queue.Queue) (sub : Nat) (m : Mem)
    (hidle : (m.subs sub).frame = none) :
    (∀ (f : frame.Frame) (rest : List frame.Frame),
      m.qstore.frames (m.subs sub).dest = f :: rest →
      ∃ m1 : Mem,
        q.Subscribe sub m = .ok (q, m1) ∧
        handedTo m m1 sub f ∧
        m1.qstore.frames (m.subs sub).dest = rest ∧
        ∀ d, d ≠ (m.subs sub).dest → m1.qstore.frames d = m.qstore.frames d) ∧
    (m.qstore.frames (m.subs sub).dest = [] →
      ∃ q1 : queue.Queue,
        q.Subscribe sub m = .ok (q1, m) ∧
        q1 = { q with subs := q.subs.Add sub } ∧
        sub ∈ q1.subs.subs) := by
  refine ⟨?_, ?_⟩
  · intro f rest hfr
    obtain ⟨m1, hs, hh, hq⟩ := sendQueueFrame_idle
      { m with qstore := m.qstore.put (m.subs sub).dest rest } sub f hidle
    refine ⟨m1, ?_, hh, ?_, ?_⟩
    · rw [subscribe_frame q sub m f rest hfr, hs]
    · rw [hq]
      exact put_frames_same _ _ _
    · intro d hd
      rw [hq]
      exact put_frames_other _ _ _ _ hd
  · intro hfr
    refine ⟨_, subscribe_empty q sub m hfr, rfl, ?_⟩
    simp only [client.SubscriptionList.Add]
    split
    · assumption
    · simp

theorem subscribe_takes_or_waits_witness :
    (demo.memAfter.subs 1).frame = none ∧
    (∃ m1 : Mem,
        demo.queueAfter.Subscribe 1 demo.memAfter = .ok (demo.queueAfter, m1) ∧
        handedTo demo.memAfter m1 1 (demo.msg 2) ∧
        m1.qstore.frames "/queue/x" = [] ∧
        ∀ d, d ≠ "/queue/x" → m1.qstore.frames d = demo.memAfter.qstore.frames d) ∧
    (demo.memPending.subs 1).frame = none ∧
    (∃ q1 : queue.Queue,
        (queue.newQueue "/queue/x").Subscribe 1 demo.memPending = .ok (q1, demo.memPending) ∧
        q1 = { queue.newQueue "/queue/x" with
               subs := (queue.newQueue "/queue/x").subs.Add 1 } ∧
        1 ∈ q1.subs.subs) :=
  ⟨rfl,
   (subscribe_takes_or_waits demo.queueAfter 1 demo.memAfter rfl).1 (demo.msg 2) [] rfl,
   rfl,
   (subscribe_takes_or_waits (queue.newQueue "/queue/x") 1 demo.memPending rfl).2 rfl⟩

/-- C7: IsAckedBy(id) is true when the ack mode is auto, is (id >= s.msgId)
when the mode is client, and is (id == s.msgId) when the mode is
client-individual; in each of the three modes the method returns. -/
theorem isAckedBy_by_mode (s : client.Subscription) (msgId : Nat) :
    (s.ack = frame.AckAuto → s.IsAckedBy msgId = .ok true) ∧
    (s.ack = frame.AckClient → s.IsAckedBy msgId = .ok (decide (msgId ≥ s.msgId))) ∧
    (s.ack = frame.AckClientIndividual →
      s.IsAckedBy msgId = .ok (decide (msgId = s.msgId))) := by
  refine ⟨?_, ?_, ?_⟩
  · intro h
    simp [client.Subscription.IsAckedBy, h]
  · intro h
    have h1 : frame.AckClient ≠ frame.AckAuto := by decide
    simp [client.Subscription.IsAckedBy, h, h1]
  · intro h
    have h1 : frame.AckClientIndividual ≠ frame.AckAuto := by decide
    have h2 : frame.AckClientIndividual ≠ frame.AckClient := by decide
    simp [client.Subscription.IsAckedBy, h, h1, h2]

theorem isAckedBy_by_mode_witness :
    ((client.newSubscription 0 "/queue/x" "c" "auto").ack = frame.AckAuto ∧
      ({ client.newSubscription 0 "/queue/x" "c" "auto" with msgId := 5 } :
        client.Subscription).IsAckedBy 4 = .ok true) ∧
    ((client.newSubscription 0 "/queue/x" "b" "client").ack = frame.AckClient ∧
      ({ client.newSubscription 0 "/queue/x" "b" "client" with msgId := 5 } :
        client.Subscription).IsAckedBy 4 = .ok false ∧
      ({ client.newSubscription 0 "/queue/x" "b" "client" with msgId := 5 } :
        client.Subscription).IsAckedBy 6 = .ok true) ∧
    ((client.newSubscription 0 "/queue/x" "a" "client-individual").ack =
        frame.AckClientIndividual ∧
      ({ client.newSubscription 0 "/queue/x" "a" "client-individual" with msgId := 5 } :
        client.Subscription).IsAckedBy 6 = .ok false ∧
      ({ client.newSubscription 0 "/queue/x" "a" "client-individual" with msgId := 5 } :
        client.Subscription).IsAckedBy 5 = .ok true) :=
  ⟨⟨rfl, (isAckedBy_by_mode
      { client.newSubscription 0 "/queue/x" "c" "auto" with msgId := 5 } 4).1 rfl⟩,
   ⟨rfl,
    (isAckedBy_by_mode
      { client.newSubscription 0 "/queue/x" "b" "client" with msgId := 5 } 4).2.1 rfl,
    (isAckedBy_by_mode
      { client.newSubscription 0 "/queue/x" "b" "client" with msgId := 5 } 6).2.1 rfl⟩,
   ⟨rfl,
    (isAckedBy_by_mode
      { client.newSubscription 0 "/queue/x" "a" "client-individual" with msgId := 5 }
      6).2.2 rfl,
    (isAckedBy_by_mode
      { client.newSubscription 0 "/queue/x" "a" "client-individual" with msgId := 5 }
      5).2.2 rfl⟩⟩

/-- C8 (as stated, refuted): subscription 0 has no pending frame and ack
watermark 0; the sample frame carries no message-id. After SendQueueFrame the
pending frame carries the subscription header `a` but still no message-id
header, and the ack watermark is still 0. -/
theorem sendQueueFrame_sets_no_message_id :
    (demo.mem.subs 0).frame = none ∧
    (client.SendQueueFrame demo.mem 0 (demo.msg 1)).toOption.map
      (fun m => ((m.subs 0).frame.map (fun g => g.Header.Contains frame.Subscription),
                 (m.subs 0).frame.map (fun g => g.Header.Contains frame.MessageId),
                 (m.subs 0).msgId)) =
    some (some (some "a"), some none, 0) :=
  ⟨rfl, by decide⟩

/-- C8 (amended): for every subscription s with no pending frame and every
frame f, s.SendQueueFrame(f) returns; afterwards the pending frame of s is f
with the subscription header equal to s.id and every other header, the
message-id header included, as f had it; s.msgId is unchanged; s was sent on
the channel of its connection; no other subscription changed. -/
theorem sendQueueFrame_stamps_and_stores (m : Mem) (r : Nat) (f : frame.Frame)
    (hidle : (m.subs r).frame = none) :
    ∃ (m1 : Mem) (g : frame.Frame),
      client.SendQueueFrame m r f = .ok m1 ∧
      (m1.subs r).frame = some g ∧
      g.Header.Contains frame.Subscription = some (m.subs r).id ∧
      (∀ key, key ≠ frame.Subscription → g.Header.Contains key = f.Header.Contains key) ∧
      g.Command = f.Command ∧ g.Body = f.Body ∧
      (m1.subs r).msgId = (m.subs r).msgId ∧
      (m1.subs r).id = (m.subs r).id ∧
      (m1.conns (m.subs r).conn).subChannel = (m.conns (m.subs r).conn).subChannel ++ [r] ∧
      (∀ x, x ≠ r → m1.subs x = m.subs x) := by
  obtain ⟨m1, hs, ⟨h1, h2, h3, _⟩, _⟩ := sendQueueFrame_idle m r f hidle
  refine ⟨m1, stamped f (m.subs r).id, hs, by rw [h1], ?_, ?_, rfl, rfl,
    by rw [h1], by rw [h1], by rw [h3], h2⟩
  · exact contains_set_same _ _ _
  · intro key hkey
    exact contains_set_other _ _ _ _ hkey

theorem sendQueueFrame_stamps_and_stores_witness :
    (demo.mem.subs 0).frame = none ∧
    ∃ (m1 : Mem) (g : frame.Frame),
      client.SendQueueFrame demo.mem 0 (demo.msg 1) = .ok m1 ∧
      (m1.subs 0).frame = some g ∧
      g.Header.Contains frame.Subscription = some "a" ∧
      (∀ key, key ≠ frame.Subscription →
        g.Header.Contains key = (demo.msg 1).Header.Contains key) ∧
      g.Command = "SEND" ∧ g.Body = [1] ∧
      (m1.subs 0).msgId = 0 ∧
      (m1.subs 0).id = "a" ∧
      (m1.conns 0).subChannel = [0] ∧
      (∀ x, x ≠ 0 → m1.subs x = demo.mem.subs x) :=
  ⟨rfl, sendQueueFrame_stamps_and_stores demo.mem 0 (demo.msg 1) rfl⟩

/-- C9 (as stated, refuted): subscription 1, owned by connection 0, waits in
the queue `/queue/x`. After the DisconnectedOp request for connection 0 the
id of the connection is gone from the connections table, but the waiting list
of the queue still contains subscription 1, which connection 0 still owns. -/
theorem disconnected_keeps_subscriptions :
    (demo.memPending.subs 1).conn = 0 ∧
    (server.requestProcessor.Serve "/queue/" demo.proc (.DisconnectedOp 0)
        demo.memPending).toOption.map
      (fun s => (s.1.connections 0,
                 (s.1.qm.queues "/queue/x").map (fun q => q.subs.subs),
                 (s.2.subs 1).conn)) =
    some (none, some [1], 0) :=
  ⟨rfl, by decide⟩

/-- C9 (amended): for every dispatcher state and every connection c, the
DisconnectedOp request for c is processed without panic; afterwards the id of
c is no key of the connections table (so c is no longer in a table that
registers connections under their ids), every other entry of the table is
kept, and the request changes no subscription list: both managers, with every
queue and topic, and the memory are as before, so a subscription that was in a
list of a queue or topic, owned by c or not, is still in it. -/
theorem disconnected_drops_table_entry (QueuePrefix : String)
    (proc : server.requestProcessor) (c : Nat) (m : Mem) :
    ∃ proc1 : server.requestProcessor,
      server.requestProcessor.Serve QueuePrefix proc (.DisconnectedOp c) m =
        .ok (proc1, m) ∧
      proc1.connections (m.conns c).Id = none ∧
      (∀ k, k ≠ (m.conns c).Id → proc1.connections k = proc.connections k) ∧
      ((∀ k c1, proc.connections k = some c1 → (m.conns c1).Id = k) →
        ∀ k, proc1.connections k ≠ some c) ∧
      proc1.qm = proc.qm ∧ proc1.tm = proc.tm ∧
      (∀ (d : String) (q : queue.Queue) (sub : Nat),
        proc.qm.queues d = some q → sub ∈ q.subs.subs →
        ∃ q1 : queue.Queue, proc1.qm.queues d = some q1 ∧ sub ∈ q1.subs.subs) ∧
      (∀ (d : String) (t : topic.Topic) (sub : Nat),
        proc.tm.topics d = some t → sub ∈ t.subs.subs →
        ∃ t1 : topic.Topic, proc1.tm.topics d = some t1 ∧ sub ∈ t1.subs.subs) := by
  refine ⟨{ proc with connections := server.deleteConn proc.connections (m.conns c).Id },
    rfl, ?_, ?_, ?_, rfl, rfl, fun d q sub hq hs => ⟨q, hq, hs⟩,
    fun d t sub ht hs => ⟨t, ht, hs⟩⟩
  · simp [server.deleteConn]
  · intro k hk
    simp [server.deleteConn, hk]
  · intro hkeyed k hk
    simp only [server.deleteConn] at hk
    split at hk
    · cases hk
    · rename_i hne
      exact hne (hkeyed k c hk).symm

theorem disconnected_drops_table_entry_witness :
    (∀ k c1, demo.proc.connections k = some c1 → (demo.memPending.conns c1).Id = k) ∧
    (demo.memPending.subs 1).conn = 0 ∧
    ∃ proc1 : server.requestProcessor,
      server.requestProcessor.Serve "/queue/" demo.proc (.DisconnectedOp 0)
        demo.memPending = .ok (proc1, demo.memPending) ∧
      proc1.connections 0 = none ∧
      (∀ k, k ≠ 0 → proc1.connections k = demo.proc.connections k) ∧
      (∀ k, proc1.connections k ≠ some 0) ∧
      proc1.qm = demo.proc.qm ∧ proc1.tm = demo.proc.tm ∧
      ∃ q1 : queue.Queue, proc1.qm.queues "/queue/x" = some q1 ∧ 1 ∈ q1.subs.subs :=
  have hkeyed : ∀ k c1, demo.proc.connections k = some c1 →
      (demo.memPending.conns c1).Id = k := by
    intro k c1 h
    simp only [demo.proc] at h
    split at h
    · cases h; subst k; rfl
    · split at h
      · cases h; subst k; rfl
      · split at h
        · cases h; subst k; rfl
        · cases h
  ⟨hkeyed, rfl,
   (disconnected_drops_table_entry "/queue/" demo.proc 0 demo.memPending).imp
     (fun _ h => ⟨h.1, h.2.1, h.2.2.1, h.2.2.2.1 hkeyed, h.2.2.2.2.1, h.2.2.2.2.2.1,
       h.2.2.2.2.2.2.1 "/queue/x" demo.queueWaiting 1 rfl (by decide)⟩)⟩

/-- C10: a RequeueOp request whose frame has a destination header that does
not begin with the queue prefix is processed without panic and dropped: the
processor (both managers with every queue and topic, the connections table)
and the memory are exactly as before, so no destination is created. -/
theorem requeue_to_topic_dropped (QueuePrefix : String)
    (proc : server.requestProcessor) (f : frame.Frame) (m : Mem) (destination : String)
    (hdest : f.Header.Contains frame.Destination = some destination)
    (htopic : ¬ QueuePrefix.data <+: destination.data) :
    server.requestProcessor.Serve QueuePrefix proc (.RequeueOp f) m = .ok (proc, m) := by
  have h : server.isQueueDestination QueuePrefix destination = false := by
    simp only [server.isQueueDestination]
    cases hp : QueuePrefix.data.isPrefixOf destination.data with
    | false => rfl
    | true => exact absurd (List.isPrefixOf_iff_prefix.mp hp) htopic
  simp [server.requestProcessor.Serve, hdest, h]

theorem requeue_to_topic_dropped_witness :
    demo.topicMsg.Header.Contains frame.Destination = some "/topic/t" ∧
    ¬ ("/queue/" : String).data <+: ("/topic/t" : String).data ∧
    server.requestProcessor.Serve "/queue/" demo.proc (.RequeueOp demo.topicMsg)
      demo.memPending = .ok (demo.proc, demo.memPending) :=
  have h1 : demo.topicMsg.Header.Contains frame.Destination = some "/topic/t" := by decide
  have h2 : ¬ ("/queue/" : String).data <+: ("/topic/t" : String).data := by decide
  ⟨h1, h2,
   requeue_to_topic_dropped "/queue/" demo.proc demo.topicMsg demo.memPending "/topic/t"
     h1 h2⟩

/-- C11: a SubscribeOp, UnsubscribeOp or EnqueueOp request with destination d
(the destination of the subscription, or the destination header of the frame)
is routed by the queue prefix. When d begins with the prefix the method is
called on the queue registered under d (created if needed) and nothing but
that queue is touched: the topic manager is unchanged. Otherwise the method is
called on the topic registered under d and nothing but that topic is touched:
the queue manager and the queue storage are unchanged. The request returns
whenever the method it is routed to returns. -/
theorem routes_by_prefix (QueuePrefix : String) (proc : server.requestProcessor) (m : Mem) :
    (∀ (sub : Nat) (s1 : server.requestProcessor × Mem),
      server.requestProcessor.Serve QueuePrefix proc (.SubscribeOp sub) m = .ok s1 →
      (QueuePrefix.data <+: (m.subs sub).dest.data →
        onlyQueueTouched proc s1.1 (m.subs sub).dest ∧
        ∃ q1 : queue.Queue, s1.1.qm.queues (m.subs sub).dest = some q1 ∧
          (proc.qm.Find (m.subs sub).dest).1.Subscribe sub m = .ok (q1, s1.2)) ∧
      (¬ QueuePrefix.data <+: (m.subs sub).dest.data →
        onlyTopicTouched proc s1.1 (m.subs sub).dest ∧ s1.2 = m ∧
        s1.1.tm.topics (m.subs sub).dest =
          some ((proc.tm.Find (m.subs sub).dest).1.Subscribe sub))) ∧
    (∀ (sub : Nat) (s1 : server.requestProcessor × Mem),
      server.requestProcessor.Serve QueuePrefix proc (.UnsubscribeOp sub) m = .ok s1 →
      (QueuePrefix.data <+: (m.subs sub).dest.data →
        onlyQueueTouched proc s1.1 (m.subs sub).dest ∧ s1.2 = m ∧
        s1.1.qm.queues (m.subs sub).dest =
          some ((proc.qm.Find (m.subs sub).dest).1.Unsubscribe sub)) ∧
      (¬ QueuePrefix.data <+: (m.subs sub).dest.data →
        onlyTopicTouched proc s1.1 (m.subs sub).dest ∧ s1.2 = m ∧
        s1.1.tm.topics (m.subs sub).dest =
          some ((proc.tm.Find (m.subs sub).dest).1.Unsubscribe sub))) ∧
    (∀ (f : frame.Frame) (d : String) (s1 : server.requestProcessor × Mem),
      f.Header.Contains frame.Destination = some d →
      server.requestProcessor.Serve QueuePrefix proc (.EnqueueOp f) m = .ok s1 →
      (QueuePrefix.data <+: d.data →
        onlyQueueTouched proc s1.1 d ∧
        ∃ q1 : queue.Queue, s1.1.qm.queues d = some q1 ∧
          (proc.qm.Find d).1.Enqueue f m = .ok (q1, s1.2)) ∧
      (¬ QueuePrefix.data <+: d.data →
        onlyTopicTouched proc s1.1 d ∧ s1.2.qstore = m.qstore ∧
        s1.1.tm.topics d = some (proc.tm.Find d).1 ∧
        (proc.tm.Find d).1.Enqueue f m = .ok s1.2)) ∧
    (∀ sub : Nat,
      (∃ s1, server.requestProcessor.Serve QueuePrefix proc (.UnsubscribeOp sub) m = .ok s1) ∧
      (¬ QueuePrefix.data <+: (m.subs sub).dest.data →
        ∃ s1, server.requestProcessor.Serve QueuePrefix proc (.SubscribeOp sub) m = .ok s1) ∧
      (QueuePrefix.data <+: (m.subs sub).dest.data →
        ∀ r1, (proc.qm.Find (m.subs sub).dest).1.Subscribe sub m = .ok r1 →
        ∃ s1, server.requestProcessor.Serve QueuePrefix proc (.SubscribeOp sub) m = .ok s1)) ∧
    (∀ (f : frame.Frame) (d : String), f.Header.Contains frame.Destination = some d →
      (QueuePrefix.data <+: d.data →
        ∀ r1, (proc.qm.Find d).1.Enqueue f m = .ok r1 →
        ∃ s1, server.requestProcessor.Serve QueuePrefix proc (.EnqueueOp f) m = .ok s1) ∧
      (¬ QueuePrefix.data <+: d.data →
        ∀ m1, (proc.tm.Find d).1.Enqueue f m = .ok m1 →
        ∃ s1, server.requestProcessor.Serve QueuePrefix proc (.EnqueueOp f) m = .ok s1)) := by
  refine ⟨?_, ?_, ?_, ?_, ?_⟩
  · intro sub s1 h
    refine ⟨?_, ?_⟩
    · intro hp
      rw [serve_subscribe_queue QueuePrefix proc sub m
        ((isQueueDestination_iff _ _).mpr hp)] at h
      split at h
      · cases h
      · rename_i q1 m1 hs
        cases h
        refine ⟨⟨rfl, rfl, ?_⟩, q1, ?_, hs⟩
        · intro e he
          simp only [queue_find_put, he, if_false]
        · simp only [queue_find_put, if_true]
    · intro hp
      rw [serve_subscribe_topic QueuePrefix proc sub m (not_isQueueDestination _ _ hp)] at h
      cases h
      refine ⟨⟨rfl, rfl, ?_⟩, rfl, ?_⟩
      · intro e he
        simp only [topic_find_put, he, if_false]
      · simp only [topic_find_put, if_true]
  · intro sub s1 h
    refine ⟨?_, ?_⟩
    · intro hp
      rw [serve_unsubscribe_queue QueuePrefix proc sub m
        ((isQueueDestination_iff _ _).mpr hp)] at h
      cases h
      refine ⟨⟨rfl, rfl, ?_⟩, rfl, ?_⟩
      · intro e he
        simp only [queue_find_put, he, if_false]
      · simp only [queue_find_put, if_true]
    · intro hp
      rw [serve_unsubscribe_topic QueuePrefix proc sub m (not_isQueueDestination _ _ hp)] at h
      cases h
      refine ⟨⟨rfl, rfl, ?_⟩, rfl, ?_⟩
      · intro e he
        simp only [topic_find_put, he, if_false]
      · simp only [topic_find_put, if_true]
  · intro f d s1 hd h
    refine ⟨?_, ?_⟩
    · intro hp
      rw [serve_enqueue_queue QueuePrefix proc f m d hd
        ((isQueueDestination_iff _ _).mpr hp)] at h
      split at h
      · cases h
      · rename_i q1 m1 hs
        cases h
        refine ⟨⟨rfl, rfl, ?_⟩, q1, ?_, hs⟩
        · intro e he
          simp only [queue_find_put, he, if_false]
        · simp only [queue_find_put, if_true]
    · intro hp
      rw [serve_enqueue_topic QueuePrefix proc f m d hd (not_isQueueDestination _ _ hp)] at h
      split at h
      · cases h
      · rename_i m1 hs
        cases h
        refine ⟨⟨rfl, rfl, ?_⟩, ?_, ?_, hs⟩
        · intro e he
          simp only [topic_find_registers, he, if_false]
        · exact (sendAll_keeps f _ m m1 hs).1
        · simp only [topic_find_registers, if_true]
  · intro sub
    refine ⟨?_, ?_, ?_⟩
    · cases hq : server.isQueueDestination QueuePrefix (m.subs sub).dest with
      | true => exact ⟨_, serve_unsubscribe_queue QueuePrefix proc sub m hq⟩
      | false => exact ⟨_, serve_unsubscribe_topic QueuePrefix proc sub m hq⟩
    · intro hp
      exact ⟨_, serve_subscribe_topic QueuePrefix proc sub m (not_isQueueDestination _ _ hp)⟩
    · intro hp r1 hr
      rw [serve_subscribe_queue QueuePrefix proc sub m
        ((isQueueDestination_iff _ _).mpr hp), hr]
      exact ⟨_, rfl⟩
  · intro f d hd
    refine ⟨?_, ?_⟩
    · intro hp r1 hr
      rw [serve_enqueue_queue QueuePrefix proc f m d hd
        ((isQueueDestination_iff _ _).mpr hp), hr]
      exact ⟨_, rfl⟩
    · intro hp m1 hr
      rw [serve_enqueue_topic QueuePrefix proc f m d hd (not_isQueueDestination _ _ hp), hr]
      exact ⟨_, rfl⟩

theorem routes_by_prefix_witness :
    ("/queue/" : String).data <+: (demo.memPending.subs 2).dest.data ∧
    demo.topicMsg.Header.Contains frame.Destination = some "/topic/t" ∧
    ¬ ("/queue/" : String).data <+: ("/topic/t" : String).data ∧
    (∃ s1 : server.requestProcessor × Mem,
      server.requestProcessor.Serve "/queue/" demo.proc (.SubscribeOp 2) demo.memPending =
        .ok s1 ∧
      onlyQueueTouched demo.proc s1.1 "/queue/x" ∧
      ∃ q1 : queue.Queue, s1.1.qm.queues "/queue/x" = some q1 ∧
        (demo.proc.qm.Find "/queue/x").1.Subscribe 2 demo.memPending = .ok (q1, s1.2)) ∧
    (∃ s1 : server.requestProcessor × Mem,
      server.requestProcessor.Serve "/queue/" demo.proc (.EnqueueOp demo.topicMsg)
        demo.memPending = .ok s1 ∧
      onlyTopicTouched demo.proc s1.1 "/topic/t" ∧ s1.2.qstore = demo.memPending.qstore ∧
      s1.1.tm.topics "/topic/t" = some (demo.proc.tm.Find "/topic/t").1 ∧
      (demo.proc.tm.Find "/topic/t").1.Enqueue demo.topicMsg demo.memPending = .ok s1.2) := by
  have h1 : ("/queue/" : String).data <+: (demo.memPending.subs 2).dest.data := by decide
  have h2 : demo.topicMsg.Header.Contains frame.Destination = some "/topic/t" := by decide
  have h3 : ¬ ("/queue/" : String).data <+: ("/topic/t" : String).data := by decide
  have h := routes_by_prefix "/queue/" demo.proc demo.memPending
  refine ⟨h1, h2, h3, ?_, ?_⟩
  · obtain ⟨s1, hs1⟩ := (h.2.2.2.1 2).2.2 h1 _
      (subscribe_empty (demo.proc.qm.Find "/queue/x").1 2 demo.memPending rfl)
    exact ⟨s1, hs1, (h.1 2 s1 hs1).1 h1⟩
  · obtain ⟨s1, hs1⟩ := (h.2.2.2.2 demo.topicMsg "/topic/t" h2).2 h3 _ rfl
    exact ⟨s1, hs1, (h.2.2.1 demo.topicMsg "/topic/t" s1 h2 hs1).2 h3⟩

/-- C12 (the code at the failing input): for the sample SEND frame with one
header and the body `hi`, a writer that never fails receives the command, a
newline, the header name, a colon and the header value, and then at once the
body and the NUL byte; the newline after the header and the newline ending the
header block, which the wire format has, are not written. -/
theorem writeTo_omits_header_newlines :
    (demo.sendFrame.WriteTo stomp.bufferWriter []).1 =
      stomp.bytesOf "SEND" ++ [10] ++ stomp.bytesOf "destination:/queue/x" ++
        stomp.bytesOf "hi" ++ [0] ∧
    (demo.sendFrame.WriteTo stomp.bufferWriter []).2.2 = none ∧
    stomp.wireFormat demo.sendFrame =
      stomp.bytesOf "SEND" ++ [10] ++ stomp.bytesOf "destination:/queue/x" ++ [10] ++
        [10] ++ stomp.bytesOf "hi" ++ [0] ∧
    (demo.sendFrame.WriteTo stomp.bufferWriter []).1 ≠ stomp.wireFormat demo.sendFrame :=
  ⟨by decide, (writeTo_buffer demo.sendFrame []).2, by decide,
   fun h => writeTo_buffer_ne_wireFormat demo.sendFrame [] (by simpa using h)⟩

/-- C13: FindHeader(name) returns a header exactly when that header is the
first one in the ordered header list whose name equals name (every header
before it has another name, whatever follows it), and returns nil exactly when
no header has that name; names are compared as they are. -/
theorem findHeader_first (f : stomp.Frame) (name : String) :
    (∀ h : stomp.Header, f.FindHeader name = some h ↔
      ∃ pre post, f.Headers = pre ++ h :: post ∧ h.Name = name ∧
        ∀ x ∈ pre, x.Name ≠ name) ∧
    (f.FindHeader name = none ↔ ∀ x ∈ f.Headers, x.Name ≠ name) :=
  ⟨fun h => findHeaderLoop_some name f.Headers h, findHeaderLoop_none name f.Headers⟩

theorem findHeader_first_witness :
    demo.repeatedFrame.FindHeader "b" = some ⟨"b", [2]⟩ ∧
    (∀ x ∈ demo.repeatedFrame.Headers, x.Name ≠ "B") ∧
    demo.repeatedFrame.FindHeader "B" = none :=
  have h1 : ∀ x ∈ demo.repeatedFrame.Headers, x.Name ≠ "B" := by decide
  ⟨((findHeader_first demo.repeatedFrame "b").1 ⟨"b", [2]⟩).mpr
      ⟨[⟨"a", [1]⟩], [⟨"b", [3]⟩, ⟨"a", [4]⟩], rfl, rfl, by decide⟩,
   h1, (findHeader_first demo.repeatedFrame "B").2.mpr h1⟩

/-- C14: for every list of entries loaded into the credential database,
Authenticate(login, passcode) is true exactly when the list has an entry with
that Login and the first such entry has that Passcode; entries after the first
with the same Login have no effect. -/
theorem authenticate_first_wins (file : String) (authData : List auth.AuthParams)
    (login passcode : String) :
    (auth.NewAuth file authData).Authenticate login passcode = true ↔
      ∃ pre e post, authData = pre ++ e :: post ∧ e.Login = login ∧
        (∀ x ∈ pre, x.Login ≠ login) ∧ e.Passcode = passcode := by
  have hl : (auth.NewAuth file authData).db.lookup login =
      (authData.find? (fun e => e.Login = login)).map (fun e => e.Passcode) := by
    simp only [auth.NewAuth, auth.AuthDB.initAuthDB]
    rw [fillDataMap_lookup]
    rfl
  simp only [auth.AuthDB.Authenticate, hl]
  cases hf : authData.find? (fun e => e.Login = login) with
  | none =>
    simp only [Option.map_none', Bool.false_eq_true, false_iff]
    rintro ⟨pre, e, post, hsplit, hlogin, hpre, _⟩
    have := (find_some_iff_first authData login e).mpr ⟨pre, post, hsplit, hlogin, hpre⟩
    rw [hf] at this
    cases this
  | some e0 =>
    obtain ⟨pre, post, hsplit, hlogin, hpre⟩ := (find_some_iff_first authData login e0).mp hf
    simp only [Option.map_some']
    constructor
    · intro h
      refine ⟨pre, e0, post, hsplit, hlogin, hpre, ?_⟩
      by_contra hne
      simp [hne] at h
    · rintro ⟨pre1, e1, post1, hsplit1, hlogin1, hpre1, hpass⟩
      have h1 := (find_some_iff_first authData login e1).mpr
        ⟨pre1, post1, hsplit1, hlogin1, hpre1⟩
      rw [hf] at h1
      cases h1
      simp [hpass]

theorem authenticate_first_wins_witness :
    (auth.NewAuth "auth.json" demo.logins).Authenticate "u" "p" = true ∧
    ¬ (auth.NewAuth "auth.json" demo.logins).Authenticate "u" "other" = true :=
  ⟨(authenticate_first_wins "auth.json" demo.logins "u" "p").mpr
      ⟨[], ⟨"u", "p"⟩, [⟨"v", "q"⟩, ⟨"u", "other"⟩], rfl, rfl, by simp, rfl⟩,
   fun h => by
     obtain ⟨pre, e, post, hsplit, hlogin, hpre, hpass⟩ :=
       (authenticate_first_wins "auth.json" demo.logins "u" "other").mp h
     cases pre with
     | nil =>
       simp only [demo.logins, List.nil_append, List.cons.injEq] at hsplit
       rw [← hsplit.1] at hpass
       exact absurd hpass (by decide)
     | cons p ps =>
       simp only [demo.logins, List.cons_append, List.cons.injEq] at hsplit
       exact hpre p (by simp) (by rw [← hsplit.1])⟩

/-- C15: the Authenticate of the server configuration returns true when the
server has no Authenticator, and otherwise returns what the configured
Authenticator returns for the same login and passcode. -/
theorem config_authenticate (c : server.config) (login passcode : String) :
    (c.server.Authenticator = none → c.Authenticate login passcode = true) ∧
    (∀ authenticator : String → String → Bool,
      c.server.Authenticator = some authenticator →
      c.Authenticate login passcode = authenticator login passcode) := by
  refine ⟨?_, ?_⟩
  · intro h
    simp [server.config.Authenticate, h]
  · intro authenticator h
    simp [server.config.Authenticate, h]

theorem config_authenticate_witness :
    (server.newConfig ⟨0, none⟩).Authenticate "u" "wrong" = true ∧
    (server.newConfig ⟨0, some (auth.NewAuth "auth.json" demo.logins).Authenticate⟩).Authenticate
      "u" "wrong" = (auth.NewAuth "auth.json" demo.logins).Authenticate "u" "wrong" ∧
    (auth.NewAuth "auth.json" demo.logins).Authenticate "u" "wrong" = false :=
  ⟨(config_authenticate (server.newConfig ⟨0, none⟩) "u" "wrong").1 rfl,
   (config_authenticate
      (server.newConfig ⟨0, some (auth.NewAuth "auth.json" demo.logins).Authenticate⟩)
      "u" "wrong").2 _ rfl,
   by decide⟩

/-- C16: Requeue leaves totalCount and currentCount as they were, whether it
hands the frame to a waiting subscription or stores it; and after every
sequence of Subscribe, Unsubscribe, Enqueue and Requeue calls on a newly
created queue, totalCount is the number of Enqueue calls in the sequence, as a
64-bit counter holds it: equal to that number whenever it is below 2^63. -/
theorem totalCount_counts_enqueues :
    (∀ (q : queue.Queue) (f : frame.Frame) (m : Mem) (s1 : queue.Queue × Mem),
      q.Requeue f m = .ok s1 →
      s1.1.totalCount = q.totalCount ∧ s1.1.currentCount = q.currentCount) ∧
    (∀ (destination : String) (m0 : Mem) (calls : List queue.Call) (q : queue.Queue)
      (m : Mem),
      queue.run calls (queue.newQueue destination, m0) = .ok (q, m) →
      q.totalCount = wrapInt64 (enqueueCount calls) ∧
      (enqueueCount calls < 2 ^ 63 → q.totalCount = enqueueCount calls)) := by
  refine ⟨?_, ?_⟩
  · intro q f m s1 h
    exact apply_counters (.Requeue f) (q, m) s1 h
  · intro destination m0 calls q m h
    have h1 := (run_counters calls _ _ h).1
    have h2 : q.totalCount = wrapInt64 (enqueueCount calls) := by
      rw [← iterate_bump_zero]
      exact h1
    refine ⟨h2, ?_⟩
    intro hlt
    rw [h2, wrapInt64_small _ hlt]

theorem totalCount_counts_enqueues_witness :
    (∃ s1 : queue.Queue × Mem,
      demo.queueAfter.Requeue (demo.msg 3) demo.memAfter = .ok s1 ∧
      s1.1.totalCount = 2 ∧ s1.1.currentCount = 2) ∧
    (∃ s1 : queue.Queue × Mem,
      demo.queueWaiting.Requeue (demo.msg 3) demo.memPending = .ok s1 ∧
      s1.1.totalCount = 1 ∧ s1.1.currentCount = 1) ∧
    (∃ (q : queue.Queue) (m : Mem),
      queue.run [queue.Call.Subscribe 0, .Enqueue (demo.msg 1), .Requeue (demo.msg 3),
          .Unsubscribe 1, .Enqueue (demo.msg 2)]
        (queue.newQueue "/queue/x", demo.mem) = .ok (q, m) ∧
      q.totalCount = 2) :=
  ⟨⟨_, rfl, totalCount_counts_enqueues.1 demo.queueAfter (demo.msg 3) demo.memAfter _ rfl⟩,
   ⟨_, rfl,
    totalCount_counts_enqueues.1 demo.queueWaiting (demo.msg 3) demo.memPending _ rfl⟩,
   ⟨_, _, rfl,
    (totalCount_counts_enqueues.2 "/queue/x" demo.mem
      [queue.Call.Subscribe 0, .Enqueue (demo.msg 1), .Requeue (demo.msg 3),
        .Unsubscribe 1, .Enqueue (demo.msg 2)] _ _ rfl).2 (by decide)⟩⟩

/-- C17: for every subscription, in the ack modes auto, client and
client-individual as in any other, and every message id, IsNackedBy(id) is
(id == s.msgId). -/
theorem isNackedBy_named_message (s : client.Subscription) (msgId : Nat) :
    s.IsNackedBy msgId = decide (msgId = s.msgId) ∧
    (s.IsNackedBy msgId = true ↔ msgId = s.msgId) ∧
    ∀ ack : String, ({ s with ack := ack } : client.Subscription).IsNackedBy msgId =
      s.IsNackedBy msgId := by
  refine ⟨rfl, ?_, fun _ => rfl⟩
  simp [client.Subscription.IsNackedBy]

/-- C18: a subscription that already has a pending frame takes no second one.
SendQueueFrame(f) and SendTopicFrame(f) on it end in the panic of
setSubscriptionHeader with the memory (the pending frame included) and the
frame f, its headers included, exactly as they were; SendQueueFrame returns
only when no frame is pending, and then always. -/
theorem pending_frame_blocks_send (m : Mem) (r : Nat) (f : frame.Frame) :
    (∀ g : frame.Frame, (m.subs r).frame = some g →
      client.SendQueueFrameTraced m r f =
        (m, f, some "subscription already has a frame pending") ∧
      client.SendTopicFrameTraced m r f =
        (m, f, some "subscription already has a frame pending") ∧
      client.SendQueueFrame m r f = .error "subscription already has a frame pending" ∧
      client.SendTopicFrame m r f = .error "subscription already has a frame pending") ∧
    ((∃ m1, client.SendQueueFrame m r f = .ok m1) ↔ (m.subs r).frame = none) ∧
    (client.SendQueueFrame m r f =
      match client.SendQueueFrameTraced m r f with
      | (m1, _, none) => .ok m1
      | (_, _, some p) => .error p) ∧
    (client.SendTopicFrame m r f =
      match client.SendTopicFrameTraced m r f with
      | (m1, _, none) => .ok m1
      | (_, _, some p) => .error p) := by
  refine ⟨?_, ?_, ?_, ?_⟩
  · intro g hg
    refine ⟨?_, ?_, sendQueueFrame_pending m r f g hg, ?_⟩
    · simp [client.SendQueueFrameTraced, client.Subscription.setSubscriptionHeaderTraced, hg]
    · simp [client.SendTopicFrameTraced, client.Subscription.setSubscriptionHeaderTraced, hg]
    · simp [client.SendTopicFrame, client.Subscription.setSubscriptionHeader, hg]
  · constructor
    · rintro ⟨m1, h⟩
      exact (sendQueueFrame_effect h).1
    · intro h
      obtain ⟨m1, h1, _⟩ := sendQueueFrame_idle m r f h
      exact ⟨m1, h1⟩
  · cases hf : (m.subs r).frame with
    | none =>
      simp [client.SendQueueFrame, client.SendQueueFrameTraced,
        client.Subscription.setSubscriptionHeader,
        client.Subscription.setSubscriptionHeaderTraced, hf]
    | some g =>
      simp [client.SendQueueFrame, client.SendQueueFrameTraced,
        client.Subscription.setSubscriptionHeader,
        client.Subscription.setSubscriptionHeaderTraced, hf]
  · cases hf : (m.subs r).frame with
    | none =>
      simp [client.SendTopicFrame, client.SendTopicFrameTraced,
        client.Subscription.setSubscriptionHeader,
        client.Subscription.setSubscriptionHeaderTraced, hf]
    | some g =>
      simp [client.SendTopicFrame, client.SendTopicFrameTraced,
        client.Subscription.setSubscriptionHeader,
        client.Subscription.setSubscriptionHeaderTraced, hf]

theorem pending_frame_blocks_send_witness :
    (demo.memPending.subs 0).frame = some (stamped (demo.msg 1) "a") ∧
    client.SendQueueFrameTraced demo.memPending 0 (demo.msg 2) =
      (demo.memPending, demo.msg 2, some "subscription already has a frame pending") ∧
    client.SendTopicFrameTraced demo.memPending 0 (demo.msg 2) =
      (demo.memPending, demo.msg 2, some "subscription already has a frame pending") ∧
    client.SendQueueFrame demo.memPending 0 (demo.msg 2) =
      .error "subscription already has a frame pending" ∧
    client.SendTopicFrame demo.memPending 0 (demo.msg 2) =
      .error "subscription already has a frame pending" ∧
    (demo.memPending.subs 1).frame = none ∧
    ∃ m1, client.SendQueueFrame demo.memPending 1 (demo.msg 2) = .ok m1 :=
  ⟨rfl,
   ((pending_frame_blocks_send demo.memPending 0 (demo.msg 2)).1 _ rfl).1,
   ((pending_frame_blocks_send demo.memPending 0 (demo.msg 2)).1 _ rfl).2.1,
   ((pending_frame_blocks_send demo.memPending 0 (demo.msg 2)).1 _ rfl).2.2.1,
   ((pending_frame_blocks_send demo.memPending 0 (demo.msg 2)).1 _ rfl).2.2.2,
   rfl,
   (pending_frame_blocks_send demo.memPending 1 (demo.msg 2)).2.1.mpr rfl⟩

/-- C19: GetStatus reports the counters of the queue and returns the queue with
currentCount reset to zero and every other field (totalCount, the waiting
list, the destination) as it was; it only reads the storage. After a GetStatus
call, or after the creation of the queue, and any sequence of Subscribe,
Unsubscribe, Enqueue and Requeue calls, the next GetStatus reports as
CurrentCount the number of Enqueue calls in that sequence, as a 64-bit counter
holds it: equal to that number whenever it is below 2^63. With no Enqueue call
in between, the second GetStatus reports CurrentCount 0 and the same
TotalCount. -/
theorem getStatus_reports_and_resets :
    (∀ (q : queue.Queue) (m : Mem),
      (q.GetStatus m).1.CurrentCount = q.currentCount ∧
      (q.GetStatus m).1.TotalCount = q.totalCount ∧
      (q.GetStatus m).1.MessageCount = (m.qstore.frames q.destination).length ∧
      (q.GetStatus m).1.SubscriptionCount = q.subs.subs.length ∧
      (q.GetStatus m).2 = { q with currentCount := 0 }) ∧
    (∀ (q : queue.Queue) (m : Mem) (calls : List queue.Call) (q1 : queue.Queue) (m1 : Mem),
      queue.run calls ((q.GetStatus m).2, m) = .ok (q1, m1) →
      (q1.GetStatus m1).1.CurrentCount = wrapInt64 (enqueueCount calls) ∧
      (enqueueCount calls < 2 ^ 63 →
        (q1.GetStatus m1).1.CurrentCount = enqueueCount calls) ∧
      (enqueueCount calls = 0 →
        (q1.GetStatus m1).1.CurrentCount = 0 ∧
        (q1.GetStatus m1).1.TotalCount = (q.GetStatus m).1.TotalCount)) ∧
    (∀ (destination : String) (m0 : Mem) (calls : List queue.Call) (q1 : queue.Queue)
      (m1 : Mem),
      queue.run calls (queue.newQueue destination, m0) = .ok (q1, m1) →
      (q1.GetStatus m1).1.CurrentCount = wrapInt64 (enqueueCount calls) ∧
      (enqueueCount calls < 2 ^ 63 →
        (q1.GetStatus m1).1.CurrentCount = enqueueCount calls)) := by
  refine ⟨?_, ?_, ?_⟩
  · intro q m
    exact ⟨rfl, rfl, rfl, rfl, rfl⟩
  · intro q m calls q1 m1 h
    have hc := run_counters calls _ _ h
    have h2 : q1.currentCount = wrapInt64 (enqueueCount calls) := by
      rw [← iterate_bump_zero]
      exact hc.2
    refine ⟨h2, ?_, ?_⟩
    · intro hlt
      show q1.currentCount = _
      rw [h2, wrapInt64_small _ hlt]
    · intro hzero
      refine ⟨?_, ?_⟩
      · show q1.currentCount = 0
        rw [h2, hzero]
        rfl
      · show q1.totalCount = q.totalCount
        have := hc.1
        rw [hzero] at this
        exact this
  · intro destination m0 calls q1 m1 h
    have hc := run_counters calls _ _ h
    have h2 : q1.currentCount = wrapInt64 (enqueueCount calls) := by
      rw [← iterate_bump_zero]
      exact hc.2
    refine ⟨h2, ?_⟩
    intro hlt
    show q1.currentCount = _
    rw [h2, wrapInt64_small _ hlt]

theorem getStatus_reports_and_resets_witness :
    (demo.queueAfter.GetStatus demo.memAfter).1 =
      { Dest := "/queue/x", MessageCount := 1, TotalCount := 2, CurrentCount := 2,
        SubscriptionCount := 0 } ∧
    (∃ (q1 : queue.Queue) (m1 : Mem),
      queue.run [queue.Call.Enqueue (demo.msg 3), .Requeue (demo.msg 1), .Subscribe 1]
        ((demo.queueAfter.GetStatus demo.memAfter).2, demo.memAfter) = .ok (q1, m1) ∧
      (q1.GetStatus m1).1.CurrentCount = 1) ∧
    (∃ (q1 : queue.Queue) (m1 : Mem),
      queue.run [queue.Call.Requeue (demo.msg 1), .Subscribe 1]
        ((demo.queueAfter.GetStatus demo.memAfter).2, demo.memAfter) = .ok (q1, m1) ∧
      (q1.GetStatus m1).1.CurrentCount = 0 ∧ (q1.GetStatus m1).1.TotalCount = 2) ∧
    (∃ (q1 : queue.Queue) (m1 : Mem),
      queue.run [queue.Call.Subscribe 0, .Enqueue (demo.msg 1), .Enqueue (demo.msg 2)]
        (queue.newQueue "/queue/x", demo.mem) = .ok (q1, m1) ∧
      (q1.GetStatus m1).1.CurrentCount = 2) :=
  ⟨rfl,
   ⟨_, _, rfl,
    ((getStatus_reports_and_resets.2.1 demo.queueAfter demo.memAfter
      [queue.Call.Enqueue (demo.msg 3), .Requeue (demo.msg 1), .Subscribe 1] _ _ rfl).2.1
      (by decide))⟩,
   ⟨_, _, rfl,
    ((getStatus_reports_and_resets.2.1 demo.queueAfter demo.memAfter
      [queue.Call.Requeue (demo.msg 1), .Subscribe 1] _ _ rfl).2.2 rfl)⟩,
   ⟨_, _, rfl,
    ((getStatus_reports_and_resets.2.2 "/queue/x" demo.mem
      [queue.Call.Subscribe 0, .Enqueue (demo.msg 1), .Enqueue (demo.msg 2)] _ _ rfl).2
      (by decide))⟩⟩
